import Mathlib

/-!
Shallow embedding of the fuiz game server core (Rust) in Lean 4, together
with proofs settling the claims of the specification against the code.

Conventions of the embedding:
* machine integers (`u16`, `u64`, `usize`) become `Nat`; saturating and
  checked operations are written out explicitly;
* `std::time::SystemTime` instants become `Nat` (milliseconds on an
  arbitrary epoch); `SystemTime::duration_since`, which returns `Err`
  when the argument is later than the receiver (and whose `expect` is a
  panic), becomes an `Option Nat`;
* fallible code and code that can panic returns `Option`;
* `HashMap` becomes an association list with insert-overwrite semantics
  (`alist_put`), `HashSet` becomes a duplicate-free list
  (`slist_insert` and `slist_remove`); iteration order of a hash
  container is immaterial for every fact proved below;
* f64 arithmetic of the score formula is embedded as exact rational
  arithmetic (every quantity involved is a ratio of millisecond
  durations times a point count; the `as u64` cast becomes
  `Int.toNat ∘ Rat.floor`, which truncates and clamps negatives to 0
  exactly as the saturating float-to-int cast does for values in range);
* external pure functions (the rustrict profanity filter and whitespace
  trimmer, petname generation, `fastrand` shuffling, `Uuid` generation)
  are taken as parameters, as are the tunnels of the transport layer
  (a watcher's tunnel presence is a predicate `alive : Id → Bool`).
-/

namespace FuizGame

/-- Watcher identifiers (`watcher::Id`, a random 128-bit UUID) are embedded
as natural numbers; only equality and the `Ord` instance are used. -/
abbrev Id := Nat

/-! ### Association-list model of `HashMap` and `HashSet` -/

/-- Lookup in an association list, the embedding of `HashMap::get`. -/
def alist_get {α β : Type} [DecidableEq α] : List (α × β) → α → Option β
  | [], _ => none
  | (a, b) :: t, k => if a = k then some b else alist_get t k

/-- Insert-or-overwrite, the embedding of `HashMap::insert`. -/
def alist_put {α β : Type} [DecidableEq α] : List (α × β) → α → β → List (α × β)
  | [], k, v => [(k, v)]
  | (a, b) :: t, k, v => if a = k then (k, v) :: t else (a, b) :: alist_put t k v

/-- Membership of a key, the embedding of `HashMap::contains_key`. -/
def alist_has {α β : Type} [DecidableEq α] (l : List (α × β)) (k : α) : Bool :=
  (alist_get l k).isSome

/-- Set insertion, the embedding of `HashSet::insert`; returns the new set
and whether the element was newly inserted (the `bool` that
`HashSet::insert` returns). -/
def slist_insert {α : Type} [DecidableEq α] (l : List α) (x : α) : List α × Bool :=
  if x ∈ l then (l, false) else (x :: l, true)

/-- Set removal, the embedding of `HashSet::remove`. -/
def slist_remove {α : Type} [DecidableEq α] (l : List α) (x : α) : List α :=
  l.filter (fun y => y ≠ x)

@[simp] theorem alist_get_nil {α β : Type} [DecidableEq α] (k : α) :
    alist_get ([] : List (α × β)) k = none := rfl

@[simp] theorem alist_get_cons {α β : Type} [DecidableEq α] (a : α) (b : β) (t : List (α × β))
    (k : α) : alist_get ((a, b) :: t) k = if a = k then some b else alist_get t k := rfl

/-! ### Game identifiers (`game_id.rs`) -/

/-- `MIN_VALUE`: the smallest game id, `0o10_000`. -/
def MIN_VALUE : Nat := 0o10000

/-- `MAX_VALUE`: the exclusive upper bound of game ids, `0o100_000`. -/
def MAX_VALUE : Nat := 0o100000

/-- `Enum::LENGTH` for `GameId`: `MAX_VALUE - MIN_VALUE`. -/
def GameId.LENGTH : Nat := MAX_VALUE - MIN_VALUE

/-- One step of `u16::from_str_radix(s, 8)`: fold a digit into the
accumulator, failing on a non-octal character or on `u16` overflow. -/
def octal_step (acc : Option Nat) (c : Char) : Option Nat :=
  match acc with
  | none => none
  | some n =>
    if c.isDigit ∧ c.toNat - '0'.toNat < 8 then
      let v := n * 8 + (c.toNat - '0'.toNat)
      if v < 65536 then some v else none
    else none

/-- Embedding of `GameId::from_str`, that is `u16::from_str_radix(s, 8)`:
an optional leading `+`, then at least one octal digit, with the value
required to fit in `u16`.  There is no range check against
`[MIN_VALUE, MAX_VALUE)`. -/
def GameId.from_str (s : String) : Option Nat :=
  let cs := s.toList
  let cs := match cs with
    | '+' :: rest => rest
    | other => other
  match cs with
  | [] => none
  | _ => cs.foldl octal_step (some 0)

/-- Embedding of `Enum::into_usize` for `GameId`:
`usize::from(self.0.saturating_sub(MIN_VALUE)).min(GameId::LENGTH - 1)`.
Natural-number subtraction is exactly `u16::saturating_sub`. -/
def GameId.into_usize (v : Nat) : Nat :=
  min (v - MIN_VALUE) (GameId.LENGTH - 1)

/-! ### Watcher values (`watcher.rs`) -/

/-- Kind of a watcher value (`ValueKind`, derived by `kinded`). -/
inductive ValueKind : Type
  | Unassigned
  | Host
  | Player
deriving DecidableEq, Repr

/-- Payload of a player watcher (`PlayerValue`). -/
inductive PlayerValue : Type
  | Individual (name : String)
  | Team (team_name : String) (individual_name : String) (team_id : Id)
      (player_index_in_team : Nat)
deriving DecidableEq, Repr

/-- Role value of a watcher (`Value`). -/
inductive Value : Type
  | Unassigned
  | Host
  | Player (v : PlayerValue)
deriving DecidableEq, Repr

/-- `Value::kind` (generated by the `kinded` derive). -/
def Value.kind : Value → ValueKind
  | .Unassigned => .Unassigned
  | .Host => .Host
  | .Player _ => .Player

/-- `PlayerValue::name`. -/
def PlayerValue.name : PlayerValue → String
  | .Individual n => n
  | .Team _ n _ _ => n

/-- The registry of watchers (`Watchers`): the primary mapping
`HashMap<Id, Value>` and the kind-bucketed reverse index
`EnumMap<ValueKind, HashSet<Id>>`, the latter written as one field per
kind of the (three-valued) enum. -/
structure Watchers : Type where
  mapping : List (Id × Value)
  unassigned_bucket : List Id
  host_bucket : List Id
  player_bucket : List Id
deriving DecidableEq, Repr

/-- Reading `reverse_mapping[kind]`. -/
def Watchers.bucket (w : Watchers) : ValueKind → List Id
  | .Unassigned => w.unassigned_bucket
  | .Host => w.host_bucket
  | .Player => w.player_bucket

/-- `reverse_mapping[kind].insert(id)`. -/
def Watchers.bucket_put (w : Watchers) (k : ValueKind) (id : Id) : Watchers :=
  match k with
  | .Unassigned => { w with unassigned_bucket := (slist_insert w.unassigned_bucket id).1 }
  | .Host => { w with host_bucket := (slist_insert w.host_bucket id).1 }
  | .Player => { w with player_bucket := (slist_insert w.player_bucket id).1 }

/-- `reverse_mapping[kind].remove(id)`. -/
def Watchers.bucket_del (w : Watchers) (k : ValueKind) (id : Id) : Watchers :=
  match k with
  | .Unassigned => { w with unassigned_bucket := slist_remove w.unassigned_bucket id }
  | .Host => { w with host_bucket := slist_remove w.host_bucket id }
  | .Player => { w with player_bucket := slist_remove w.player_bucket id }

/-- Replacing the primary mapping, keeping the buckets (the record-update
step of `add_watcher` and `update_watcher_value`). -/
def Watchers.set_mapping (w : Watchers) (m : List (Id × Value)) : Watchers :=
  { w with mapping := m }

/-- `MAX_PLAYERS`, read from `config.toml` (`fuiz.max_player_count`); the
configuration file is not part of the sources under verification, so the
cap is a parameter of `add_watcher` below. -/
def Watchers.with_host_id (host_id : Id) : Watchers :=
  { mapping := [(host_id, Value.Host)]
    unassigned_bucket := []
    host_bucket := [host_id]
    player_bucket := [] }

/-- `Watchers::add_watcher`; `max_players` stands for the configured
`MAX_PLAYERS` constant.  Fails with `Error::MaximumPlayers` when the
primary mapping already holds `max_players` entries, and otherwise
inserts into both the mapping and the kind bucket of the value. -/
def Watchers.add_watcher (w : Watchers) (max_players : Nat) (watcher_id : Id)
    (watcher_value : Value) : Option Watchers :=
  let kind := watcher_value.kind
  if w.mapping.length ≥ max_players then
    none
  else
    some ((w.set_mapping (alist_put w.mapping watcher_id watcher_value)).bucket_put
      kind watcher_id)

/-- `Watchers::update_watcher_value`: rewires the kind buckets when the
kind changed, then overwrites the primary mapping; does nothing when the
id is unknown. -/
def Watchers.update_watcher_value (w : Watchers) (watcher_id : Id)
    (watcher_value : Value) : Watchers :=
  match alist_get w.mapping watcher_id with
  | none => w
  | some old =>
    let old_kind := old.kind
    let new_kind := watcher_value.kind
    let w' := if old_kind ≠ new_kind then
        (w.bucket_del old_kind watcher_id).bucket_put new_kind watcher_id
      else w
    w'.set_mapping (alist_put w'.mapping watcher_id watcher_value)

/-- `Watchers::get_watcher_value`. -/
def Watchers.get_watcher_value (w : Watchers) (watcher_id : Id) : Option Value :=
  alist_get w.mapping watcher_id

/-- `Watchers::has_watcher`. -/
def Watchers.has_watcher (w : Watchers) (watcher_id : Id) : Bool :=
  alist_has w.mapping watcher_id

/-- `Watchers::specific_vec(kind, tunnel_finder)` projected to the ids
(every use in the slide engines immediately projects the triples to
ids); a watcher appears iff it is in the kind bucket, has a live tunnel
(`alive`), and is present in the primary mapping. -/
def Watchers.specific_ids (w : Watchers) (k : ValueKind) (alive : Id → Bool) : List Id :=
  (w.bucket k).filter (fun id => alive id && alist_has w.mapping id)

/-- `Watchers::get_name`. -/
def Watchers.get_name (w : Watchers) (watcher_id : Id) : Option String :=
  match w.get_watcher_value watcher_id with
  | some (Value.Player pv) => some pv.name
  | _ => none

/-! ### The name registry (`names.rs` and `game_manager/names.rs`) -/

/-- The error enum of the name registry. -/
inductive NamesError : Type
  | Used
  | Assigned
  | Empty
  | Sinful
  | TooLong
deriving DecidableEq, Repr

/-- The name registry `Names`: primary mapping, reverse mapping and the
set of taken names. -/
structure Names : Type where
  mapping : List (Id × String)
  reverse_mapping : List (String × Id)
  existing : List String
deriving DecidableEq, Repr

/-- `Names::get_name`. -/
def Names.get_name (ns : Names) (id : Id) : Option String :=
  alist_get ns.mapping id

/-- `Names::get_id`. -/
def Names.get_id (ns : Names) (name : String) : Option Id :=
  alist_get ns.reverse_mapping name

/-- Embedding of `Names::set_name` of `names.rs` (the library version,
backed by `HashMap`/`HashSet`).  `trim` stands for
`rustrict::trim_whitespace` and `inappropriate` for
`rustrict::CensorStr::is_inappropriate`, both external pure functions.
`name.len()` is the byte length of the raw string.  Note that on the
`Assigned` path the name inserted into `existing` is not removed. -/
def Names.set_name (trim : String → String) (inappropriate : String → Bool)
    (ns : Names) (id : Id) (name : String) : Except NamesError String × Names :=
  if 30 < name.utf8ByteSize then (.error .TooLong, ns)
  else
    let name := trim name
    if name.isEmpty then (.error .Empty, ns)
    else if inappropriate name then (.error .Sinful, ns)
    else
      let inserted := slist_insert ns.existing name
      if ¬ inserted.2 then (.error .Used, ns)
      else
        let ns' : Names := { ns with existing := inserted.1 }
        match alist_get ns'.mapping id with
        | some _ => (.error .Assigned, ns')
        | none =>
          (.ok name,
            { ns' with
              mapping := alist_put ns'.mapping id name
              reverse_mapping := alist_put ns'.reverse_mapping name id })

/-- Embedding of `Names::set_name` of `game_manager/names.rs` (the
`ClashMap`-backed version).  Identical until the uniqueness check; on
the `Assigned` path (`insert_if_vacant` finds the id occupied) it
removes the just-reserved name from `existing` again. -/
def Names.gm_set_name (trim : String → String) (inappropriate : String → Bool)
    (ns : Names) (id : Id) (name : String) : Except NamesError String × Names :=
  if 30 < name.utf8ByteSize then (.error .TooLong, ns)
  else
    let name := trim name
    if name.isEmpty then (.error .Empty, ns)
    else if inappropriate name then (.error .Sinful, ns)
    else
      let inserted := slist_insert ns.existing name
      if ¬ inserted.2 then (.error .Used, ns)
      else
        let ns' : Names := { ns with existing := inserted.1 }
        match alist_get ns'.mapping id with
        | some _ => (.error .Assigned, { ns' with existing := slist_remove ns'.existing name })
        | none =>
          (.ok name,
            { ns' with
              mapping := alist_put ns'.mapping id name
              reverse_mapping := alist_put ns'.reverse_mapping name id })

/-! ### The team manager (`teams.rs`): data and queries -/

/-- `TeamManager`.  `OnceCell<Vec<(Id, String)>>` becomes an `Option`,
`None` standing for the unset cell. -/
structure TeamManager : Type where
  player_to_team : List (Id × Id)
  team_to_players : List (Id × List Id)
  optimal_size : Nat
  preferences : Option (List (Id × List Id))
  teams : Option (List (Id × String))
  next_team_to_receive_player : Nat
deriving DecidableEq, Repr

/-- `TeamManager::new`. -/
def TeamManager.new (optimal_size : Nat) (assign_random : Bool) : TeamManager :=
  { player_to_team := []
    team_to_players := []
    optimal_size := optimal_size
    preferences := if assign_random then none else some []
    teams := none
    next_team_to_receive_player := 0 }

/-- `TeamManager::get_team`. -/
def TeamManager.get_team (tm : TeamManager) (player_id : Id) : Option Id :=
  alist_get tm.player_to_team player_id

/-- `TeamManager::all_ids`: the team ids, empty before finalization. -/
def TeamManager.all_ids (tm : TeamManager) : List Id :=
  match tm.teams with
  | none => []
  | some teams => teams.map (fun t => t.1)

/-- `TeamManager::get_preferences`. -/
def TeamManager.get_preferences (tm : TeamManager) (watcher_id : Id) : Option (List Id) :=
  match tm.preferences with
  | none => none
  | some p => alist_get p watcher_id

/-! ### Slide phases and the shared scoring law (`fuiz/*.rs`) -/

/-- The four-phase slide state machine, identical in the three engines
(`SlideState` of `multiple_choice.rs`, `type_answer.rs`, `order.rs`). -/
inductive SlideState : Type
  | Unstarted
  | Question
  | Answers
  | AnswersResults
deriving DecidableEq, Repr

/-- Numeric rank of a phase, following the `repr(u8)` declaration order;
used to state monotonicity. -/
def SlideState.rank : SlideState → Nat
  | .Unstarted => 0
  | .Question => 1
  | .Answers => 2
  | .AnswersResults => 3

/-- `Media` (`fuiz/media.rs`): an image reference; its payload is
irrelevant to every claim and is kept as its textual identifier. -/
inductive Media : Type
  | Image (id : String) (alt : String)
deriving DecidableEq, Repr

/-- `TextOrMedia` (`fuiz/config.rs`). -/
inductive TextOrMedia : Type
  | Media (m : Media)
  | Text (s : String)
deriving DecidableEq, Repr

/-- `SystemTime::duration_since`: `later.duration_since(earlier)` is
`Ok(later - earlier)` when `earlier ≤ later` and `Err` otherwise; the
`.expect("future is past the past")` on the error is a panic, hence the
`Option`. -/
def duration_since (later earlier : Nat) : Option Nat :=
  if earlier ≤ later then some (later - earlier) else none

/-- The shared scoring law `calculate_score(full_duration, taken_duration,
full_points_awarded)`, identical in the three engines:
`(full_points_awarded as f64 * (1. - taken/full/2.)) as u64`.
Durations are in milliseconds (the f64 values divided are both in
seconds, and the common factor cancels in the ratio).  The float
expression is embedded as the exact rational value; the `as u64` cast
truncates toward zero and clamps negative values to zero, which for the
(in-range) values produced here is `Int.toNat ∘ Rat.floor`. -/
def calculate_score (full_duration taken_duration : Nat) (full_points_awarded : Nat) : Nat :=
  (Rat.floor ((full_points_awarded : ℚ) *
    (1 - ((taken_duration : ℚ) / (full_duration : ℚ) / 2)))).toNat

/-- `Rat.floor` agrees with the `FloorRing` floor on `ℚ` (the instance is
built from it). -/
theorem rat_floor_eq (q : ℚ) : Rat.floor q = ⌊q⌋ := rfl

/-- Closed form of the scoring law inside the time limit: a correct answer
after `t` of `2 f` half-lives earns `p * (2 f - t) / (2 f)` (integer
division), the exact floor of the linear decay. -/
theorem calculate_score_eq (f t p : Nat) (hf : 0 < f) (ht : t ≤ 2 * f) :
    calculate_score f t p = p * (2 * f - t) / (2 * f) := by
  unfold calculate_score
  rw [rat_floor_eq]
  have hf' : (f : ℚ) ≠ 0 := by positivity
  have h1 : (p : ℚ) * (1 - ((t : ℚ) / (f : ℚ) / 2)) =
      ((p * (2 * f - t) : ℕ) : ℚ) / ((2 * f : ℕ) : ℚ) := by
    push_cast [ht]
    field_simp
    ring
  rw [h1, Rat.floor_natCast_div_natCast, ← Int.natCast_div, Int.toNat_natCast]

/-- Beyond twice the time limit the float expression is negative and the
saturating cast yields zero. -/
theorem calculate_score_late (f t p : Nat) (hf : 0 < f) (ht : 2 * f < t) :
    calculate_score f t p = 0 := by
  unfold calculate_score
  rw [rat_floor_eq]
  have hf' : (0 : ℚ) < (f : ℚ) := by positivity
  have h2 : (p : ℚ) * (1 - ((t : ℚ) / (f : ℚ) / 2)) ≤ 0 := by
    apply mul_nonpos_of_nonneg_of_nonpos (by positivity)
    have hq : (2 : ℚ) * f < t := by exact_mod_cast (by exact_mod_cast ht : (2 * f : ℕ) < t)
    rw [sub_nonpos, div_div, le_div_iff₀ (by positivity), one_mul]
    linarith
  have h3 : ⌊(p : ℚ) * (1 - ((t : ℚ) / (f : ℚ) / 2))⌋ ≤ 0 := Int.floor_nonpos h2
  omega

/-! ### Incoming messages and alarms (`game.rs`, `game_manager/game.rs`) -/

/-- `IncomingHostMessage`. -/
inductive IncomingHostMessage : Type
  | Next
  | Index (i : Nat)
  | Lock (b : Bool)
deriving DecidableEq, Repr

/-- `IncomingPlayerMessage`: the union of the variants of
`game_manager/game.rs` (`IndexAnswer`, `ChooseTeammates`) and the answer
variants consumed by the library slide engines (`StringAnswer`,
`StringArrayAnswer`, listed in the specification's wire protocol). -/
inductive IncomingPlayerMessage : Type
  | IndexAnswer (v : Nat)
  | StringAnswer (s : String)
  | StringArrayAnswer (v : List String)
  | ChooseTeammates (v : List String)
deriving DecidableEq, Repr

/-- `IncomingUnassignedMessage`. -/
inductive IncomingUnassignedMessage : Type
  | NameRequest (s : String)
deriving DecidableEq, Repr

/-- `IncomingGhostMessage`. -/
inductive IncomingGhostMessage : Type
  | DemandId
  | ClaimId (id : Id)
deriving DecidableEq, Repr

/-- `IncomingMessage`. -/
inductive IncomingMessage : Type
  | Ghost (m : IncomingGhostMessage)
  | Host (m : IncomingHostMessage)
  | Unassigned (m : IncomingUnassignedMessage)
  | Player (m : IncomingPlayerMessage)
deriving DecidableEq, Repr

/-- `IncomingMessage::follows`: whether the message category matches the
sender's role.  A `Ghost` frame never follows any established role. -/
def IncomingMessage.follows : IncomingMessage → ValueKind → Bool
  | .Host _, .Host => true
  | .Player _, .Player => true
  | .Unassigned _, .Unassigned => true
  | _, _ => false

/-- `AlarmMessage` (library version; the `game_manager` version has only
the `MultipleChoice` variant).  Every variant is a
`ProceedFromSlideIntoSlide { index, to }` (the `to` field is named `to_state` here since `to` is reserved). -/
inductive AlarmMessage : Type
  | MultipleChoice (index : Nat) (to_state : SlideState)
  | TypeAnswer (index : Nat) (to_state : SlideState)
  | Order (index : Nat) (to_state : SlideState)
deriving DecidableEq, Repr

/-! ### Shared pieces of the three `add_scores` implementations -/

/-- One row of the iterator
`user_answers.iter().map(|(id, (answer, instant))| … )` of each engine's
`add_scores`, specialized by the engine's correctness test:
a correct answer is scored with
`instant.duration_since(starting_instant).expect(…)` (a panic — `none` —
when the submission instant precedes the starting instant), a wrong one
earns 0 without consulting the clock. -/
def scored_entries {α : Type} (correct : α → Bool)
    (time_limit points_awarded starting_instant : Nat) :
    List (Id × (α × Nat)) → Option (List (Id × Nat))
  | [] => some []
  | (id, (answer, instant)) :: rest =>
    let head : Option (Id × Nat) :=
      if correct answer then
        match duration_since instant starting_instant with
        | none => none
        | some taken => some (id, calculate_score time_limit taken points_awarded)
      else some (id, 0)
    match head, scored_entries correct time_limit points_awarded starting_instant rest with
    | some h, some t => some (h :: t)
    | _, _ => none

/-- `into_grouping_map_by(team key).min_by_key(score)` flattened back to
`(key, min score)` pairs, as consumed by the subsequent
`.map(|(id, (_, score))| (id, score))`. -/
def group_min_scores (team_of : Id → Id) : List (Id × Nat) → List (Id × Nat)
  | [] => []
  | (id, s) :: rest =>
    let g := group_min_scores team_of rest
    match alist_get g (team_of id) with
    | none => (team_of id, s) :: g
    | some s' => alist_put g (team_of id) (min s s')

/-- `unique_by(|(id, _)| *id)`: keep the first occurrence of each key. -/
def unique_by_key (seen : List Id) : List (Id × Nat) → List (Id × Nat)
  | [] => []
  | (id, s) :: rest =>
    if id ∈ seen then unique_by_key seen rest
    else (id, s) :: unique_by_key (id :: seen) rest

/-- The grouping key of `add_scores`:
`team_manager.get_team(player_id).unwrap_or(player_id)` with teams, the
player itself without. -/
def score_group_key (tm : Option TeamManager) (player_id : Id) : Id :=
  match tm with
  | some tm => (tm.get_team player_id).getD player_id
  | none => player_id

/-- The trailing `.chain(…)` of `add_scores`: team ids with teams enabled,
otherwise the ids of the player kind-bucket, all mapped to zero scores. -/
def zero_score_ids (tm : Option TeamManager) (watchers : Watchers) (alive : Id → Bool) :
    List Id :=
  match tm with
  | some tm => tm.all_ids
  | none => watchers.specific_ids .Player alive

/-- The complete score-delta computation shared by the three engines,
given the per-engine correctness test and scoring configuration; `none`
is the panic of the `expect` inside the map. -/
def add_scores_pipeline {α : Type} (correct : α → Bool)
    (time_limit points_awarded starting_instant : Nat)
    (user_answers : List (Id × (α × Nat))) (tm : Option TeamManager)
    (watchers : Watchers) (alive : Id → Bool) : Option (List (Id × Nat)) :=
  match scored_entries correct time_limit points_awarded starting_instant user_answers with
  | none => none
  | some scored =>
    some (unique_by_key []
      (group_min_scores (score_group_key tm) scored ++
        (zero_score_ids tm watchers alive).map (fun id => (id, 0))))

/-- Strict version of a boolean "less or equal" comparator. -/
def sort_lt {α : Type} (le : α → α → Bool) (x y : α) : Bool := le x y && ! le y x

/-- Stable insertion into a sorted list. -/
def insert_sorted {α : Type} (le : α → α → Bool) (x : α) : List α → List α
  | [] => [x]
  | y :: ys => if sort_lt le y x then y :: insert_sorted le x ys else x :: y :: ys

/-- A stable sort (insertion sort), standing in for the source's stable
sorts (`itertools::sorted_by`, `sorted_by_key`, `Vec::sort`): only the
key order and stability are semantically relevant. -/
def sort_by_stable {α : Type} (le : α → α → Bool) : List α → List α
  | [] => []
  | x :: xs => insert_sorted le x (sort_by_stable le xs)

/-! ### The leaderboard (`leaderboard.rs`) -/

/-- `Leaderboard`: the append-only history of per-slide score deltas and
its cached projections.  The memoized `final_summary` cell is not a
field; the functions below compute it. -/
structure Leaderboard : Type where
  points_earned : List (List (Id × Nat))
  previous_scores_descending : List (Id × Nat)
  scores_descending : List (Id × Nat)
  score_and_position : List (Id × (Nat × Nat))
deriving DecidableEq, Repr

/-- The empty leaderboard (`Leaderboard::default`). -/
def Leaderboard.default : Leaderboard :=
  { points_earned := []
    previous_scores_descending := []
    scores_descending := []
    score_and_position := [] }

/-- `Leaderboard::add_scores`: additively merge the delta vector into the
cumulative summary, re-sort descending by points, recompute positions,
push the deltas onto the history, and rotate previous ← current. -/
def Leaderboard.add_scores (lb : Leaderboard) (scores : List (Id × Nat)) : Leaderboard :=
  let summary := scores.foldl
    (fun m e => alist_put m e.1 ((alist_get m e.1).getD 0 + e.2))
    (lb.score_and_position.map (fun e => (e.1, e.2.1)))
  let desc := (sort_by_stable (fun a b => decide (a.2 ≤ b.2)) summary).reverse
  let mapping := desc.enum.map (fun e => (e.2.1, (e.2.2, e.1)))
  { points_earned := lb.points_earned ++ [scores]
    previous_scores_descending := lb.scores_descending
    scores_descending := desc
    score_and_position := mapping }

/-- `Leaderboard::score`. -/
def Leaderboard.score (lb : Leaderboard) (watcher_id : Id) : Option (Nat × Nat) :=
  alist_get lb.score_and_position watcher_id

/-- The `map_score` closure of `compute_final_summary`. -/
def map_score (show_real_score : Bool) (s : Nat) : Nat :=
  if show_real_score then s else min s 1

/-- One slide's `points_earned.iter().map(…).collect::<HashMap<_, _>>()`:
insert-overwrite over the slide's delta vector, so a duplicated id keeps
its last value. -/
def slide_score_mapping (show_real_score : Bool) (slide : List (Id × Nat)) :
    List (Id × Nat) :=
  slide.foldl (fun m e => alist_put m e.1 (map_score show_real_score e.2)) []

/-- The push loop of one fold step of `compute_final_summary`:
`aggregate_score_mapping.entry(id).or_default().push(points)` for every
entry of the slide mapping. -/
def push_slide (agg : List (Id × List Nat)) : List (Id × Nat) → List (Id × List Nat)
  | [] => agg
  | (id, p) :: rest => push_slide (alist_put agg id ((alist_get agg id).getD [] ++ [p])) rest

/-- `Vec::resize(n, 0)`. -/
def resize_to (n : Nat) (v : List Nat) : List Nat :=
  v.take n ++ List.replicate (n - v.length) 0

/-- The resize loop of one fold step of `compute_final_summary`: every
aggregated vector is resized to `slide_index + 1`. -/
def resize_all (n : Nat) (agg : List (Id × List Nat)) : List (Id × List Nat) :=
  agg.map (fun e => (e.1, resize_to n e.2))

/-- The `mapping` field of `compute_final_summary`: the enumerated fold
over the slide history. -/
def final_summary_mapping (show_real_score : Bool) (points_earned : List (List (Id × Nat))) :
    List (Id × List Nat) :=
  (points_earned.foldl
    (fun acc slide =>
      (acc.1 + 1, resize_all (acc.1 + 1) (push_slide acc.2 (slide_score_mapping show_real_score slide))))
    ((0 : Nat), ([] : List (Id × List Nat)))).2

/-- `Leaderboard::player_summary`: the memoized per-player point history,
or an all-zero vector of length `points_earned.len()` for an unknown
player. -/
def Leaderboard.player_summary (lb : Leaderboard) (id : Id) (show_real_score : Bool) :
    List Nat :=
  match alist_get (final_summary_mapping show_real_score lb.points_earned) id with
  | some v => v
  | none => List.replicate lb.points_earned.length 0

namespace MultipleChoice

/-- `AnswerChoice` of `fuiz/multiple_choice.rs`. -/
structure AnswerChoice : Type where
  correct : Bool
  content : TextOrMedia
deriving DecidableEq, Repr

/-- `SlideConfig` of `fuiz/multiple_choice.rs`; durations in
milliseconds. -/
structure SlideConfig : Type where
  title : String
  media : Option Media
  introduce_question : Nat
  time_limit : Nat
  points_awarded : Nat
  answers : List AnswerChoice
deriving DecidableEq, Repr

/-- Runtime `State` of the multiple-choice engine.  `user_answers` maps a
watcher to its chosen answer index and the submission instant. -/
structure State : Type where
  config : SlideConfig
  user_answers : List (Id × (Nat × Nat))
  answer_start : Option Nat
  state : SlideState
deriving DecidableEq, Repr

/-- `SlideConfig::to_state`. -/
def SlideConfig.to_state (c : SlideConfig) : State :=
  { config := c, user_answers := [], answer_start := none, state := .Unstarted }

/-- `State::change_state(before, after)`: set the phase to `after` iff it
currently equals `before`; returns the updated state and the success
bit. -/
def State.change_state (st : State) (before after : SlideState) : State × Bool :=
  if st.state = before then ({ st with state := after }, true) else (st, false)

/-- `State::start_timer`, with `SystemTime::now()` passed in as `now`. -/
def State.start_timer (st : State) (now : Nat) : State :=
  { st with answer_start := some now }

/-- `State::timer`: `answer_start.unwrap_or(SystemTime::now())`. -/
def State.timer (st : State) (now : Nat) : Nat :=
  st.answer_start.getD now

/-- The correctness test of `add_scores`:
`self.config.answers.get(*answer).is_some_and(|x| x.correct)`. -/
def answer_correct (answers : List AnswerChoice) (answer : Nat) : Bool :=
  match answers.get? answer with
  | some a => a.correct
  | none => false

/-- `State::add_scores` of the multiple-choice engine, projected to the
score-delta vector it passes to `leaderboard.add_scores`; `none` is the
panic of `.expect("future is past the past")`. -/
def State.add_scores_deltas (st : State) (watchers : Watchers) (tm : Option TeamManager)
    (alive : Id → Bool) (now : Nat) : Option (List (Id × Nat)) :=
  add_scores_pipeline (answer_correct st.config.answers) st.config.time_limit
    st.config.points_awarded (st.timer now) st.user_answers tm watchers alive

/-- `State::send_answers_announcements`, projected to its slide-state
effect: on the `Question → Answers` transition the timer starts; the
broadcast and the scheduled alarm do not alter the slide state. -/
def State.send_answers_announcements (st : State) (now : Nat) : State :=
  let r := st.change_state .Question .Answers
  if r.2 then r.1.start_timer now else r.1

/-- `State::send_question_announcements`, projected to its slide-state
effect: on the `Unstarted → Question` transition, when
`introduce_question` is zero the engine advances immediately into
`send_answers_announcements`, otherwise it only schedules an alarm. -/
def State.send_question_announcements (st : State) (now : Nat) : State :=
  let r := st.change_state .Unstarted .Question
  if r.2 then
    if r.1.config.introduce_question = 0 then r.1.send_answers_announcements now
    else r.1
  else r.1

/-- `State::send_answers_results`, projected to its slide-state effect. -/
def State.send_answers_results (st : State) : State :=
  (st.change_state .Answers .AnswersResults).1

/-- `State::play`. -/
def State.play (st : State) (now : Nat) : State :=
  st.send_question_announcements now

/-- `State::receive_message` of the multiple-choice engine.  The result is
the new slide state, the leaderboard, and the completion flag the engine
returns; `none` is the panic inside `add_scores`. -/
def State.receive_message (st : State) (watcher_id : Id) (message : IncomingMessage)
    (lb : Leaderboard) (watchers : Watchers) (tm : Option TeamManager)
    (alive : Id → Bool) (now : Nat) : Option (State × Leaderboard × Bool) :=
  match message with
  | .Host .Next =>
    match st.state with
    | .Unstarted => some (st.send_question_announcements now, lb, false)
    | .Question => some (st.send_answers_announcements now, lb, false)
    | .Answers => some (st.send_answers_results, lb, false)
    | .AnswersResults =>
      match st.add_scores_deltas watchers tm alive now with
      | none => none
      | some deltas => some (st, lb.add_scores deltas, true)
  | .Player (.IndexAnswer v) =>
    if v < st.config.answers.length then
      let st' := { st with user_answers := alist_put st.user_answers watcher_id (v, now) }
      if (watchers.specific_ids .Player alive).all (fun id => alist_has st'.user_answers id)
      then some (st'.send_answers_results, lb, false)
      else some (st', lb, false)
    else some (st, lb, false)
  | _ => some (st, lb, false)

/-- `State::receive_alarm` of the multiple-choice engine: only a
`MultipleChoice` alarm is examined, its `index` field is ignored, and
only the `Answers` and `AnswersResults` targets act. -/
def State.receive_alarm (st : State) (message : AlarmMessage) (now : Nat) : State :=
  match message with
  | .MultipleChoice _ to_state =>
    match to_state with
    | .Answers => st.send_answers_announcements now
    | .AnswersResults => st.send_answers_results
    | _ => st
  | _ => st

end MultipleChoice

namespace TypeAnswer

/-- `clean_answer` of `type_answer.rs`: trim, then lowercase unless
case-sensitive.  `str::trim` and `str::to_lowercase` are embedded by the
Lean string primitives of the same meaning. -/
def clean_answer (answer : String) (case_sensitive : Bool) : String :=
  if case_sensitive then answer.trim else answer.trim.toLower

/-- `SlideConfig` of `type_answer.rs`. -/
structure SlideConfig : Type where
  title : String
  media : Option Media
  introduce_question : Nat
  time_limit : Nat
  points_awarded : Nat
  answers : List String
  case_sensitive : Bool
deriving DecidableEq, Repr

/-- Runtime `State` of the type-answer engine. -/
structure State : Type where
  config : SlideConfig
  user_answers : List (Id × (String × Nat))
  answer_start : Option Nat
  state : SlideState
deriving DecidableEq, Repr

/-- `State::timer`. -/
def State.timer (st : State) (now : Nat) : Nat :=
  st.answer_start.getD now

/-- The correctness test of `add_scores`: membership of the cleaned
submission in the set of cleaned accepted answers. -/
def answer_correct (config : SlideConfig) (answer : String) : Bool :=
  (config.answers.map (fun a => clean_answer a config.case_sensitive)).contains
    (clean_answer answer config.case_sensitive)

/-- `State::add_scores` of the type-answer engine, projected to its
score-delta vector; `none` is the panic of
`.expect("future is past the past")`. -/
def State.add_scores_deltas (st : State) (watchers : Watchers) (tm : Option TeamManager)
    (alive : Id → Bool) (now : Nat) : Option (List (Id × Nat)) :=
  add_scores_pipeline (answer_correct st.config) st.config.time_limit
    st.config.points_awarded (st.timer now) st.user_answers tm watchers alive

/-- `State::change_state(before, after)` of the type-answer engine. -/
def State.change_state (st : State) (before after : SlideState) : State × Bool :=
  if st.state = before then ({ st with state := after }, true) else (st, false)

/-- `State::start_timer`, with `SystemTime::now()` passed in as `now`. -/
def State.start_timer (st : State) (now : Nat) : State :=
  { st with answer_start := some now }

/-- `State::send_accepting_answers`, projected to its slide-state effect:
on the `Question → Answers` transition the timer starts; the broadcast
and the scheduled alarm do not alter the slide state. -/
def State.send_accepting_answers (st : State) (now : Nat) : State :=
  let r := st.change_state .Question .Answers
  if r.2 then r.1.start_timer now else r.1

/-- `State::send_question_announcements` of the type-answer engine,
projected to its slide-state effect: on the `Unstarted → Question`
transition, when `introduce_question` is zero the engine advances
immediately into `send_accepting_answers`; otherwise it starts the timer
and schedules an alarm. -/
def State.send_question_announcements (st : State) (now : Nat) : State :=
  let r := st.change_state .Unstarted .Question
  if r.2 then
    if r.1.config.introduce_question = 0 then r.1.send_accepting_answers now
    else r.1.start_timer now
  else r.1

/-- `State::send_answers_results`, projected to its slide-state effect. -/
def State.send_answers_results (st : State) : State :=
  (st.change_state .Answers .AnswersResults).1

/-- `State::play` of the type-answer engine. -/
def State.play (st : State) (now : Nat) : State :=
  st.send_question_announcements now

/-- `State::receive_message` of the type-answer engine, projected to the
new slide state, the leaderboard and the completion flag; `none` is the
panic inside `add_scores`. -/
def State.receive_message (st : State) (watcher_id : Id) (message : IncomingMessage)
    (lb : Leaderboard) (watchers : Watchers) (tm : Option TeamManager)
    (alive : Id → Bool) (now : Nat) : Option (State × Leaderboard × Bool) :=
  match message with
  | .Host .Next =>
    match st.state with
    | .Unstarted => some (st.send_question_announcements now, lb, false)
    | .Question => some (st.send_accepting_answers now, lb, false)
    | .Answers => some (st.send_answers_results, lb, false)
    | .AnswersResults =>
      match st.add_scores_deltas watchers tm alive now with
      | none => none
      | some deltas => some (st, lb.add_scores deltas, true)
  | .Player (.StringAnswer v) =>
    let st' := { st with user_answers := alist_put st.user_answers watcher_id (v, now) }
    if (watchers.specific_ids .Player alive).all (fun id => alist_has st'.user_answers id)
    then some (st'.send_answers_results, lb, false)
    else some (st', lb, false)
  | _ => some (st, lb, false)

/-- `State::receive_alarm` of the type-answer engine: only a `TypeAnswer`
alarm is examined, its `index` field is ignored, and only the `Answers`
and `AnswersResults` targets act. -/
def State.receive_alarm (st : State) (message : AlarmMessage) (now : Nat) : State :=
  match message with
  | .TypeAnswer _ to_state =>
    match to_state with
    | .Answers => st.send_accepting_answers now
    | .AnswersResults => st.send_answers_results
    | _ => st
  | _ => st

end TypeAnswer

namespace OrderSlide

/-- The `Slide` struct of `order.rs`, configuration and runtime state in
one struct as in the source. -/
structure Slide : Type where
  title : String
  media : Option Media
  introduce_question : Nat
  time_limit : Nat
  points_awarded : Nat
  answers : List String
  axis_from : Option String
  axis_to : Option String
  shuffled_answers : List String
  user_answers : List (Id × (List String × Nat))
  answer_start : Option Nat
  state : SlideState
deriving DecidableEq, Repr

/-- `Slide::timer`. -/
def Slide.timer (st : Slide) (now : Nat) : Nat :=
  st.answer_start.getD now

/-- `Slide::add_scores` of the order engine, projected to its score-delta
vector; correctness is element-wise equality with the configured
ordering, and `none` is the panic of
`.expect("future is past the past")`. -/
def Slide.add_scores_deltas (st : Slide) (watchers : Watchers) (tm : Option TeamManager)
    (alive : Id → Bool) (now : Nat) : Option (List (Id × Nat)) :=
  add_scores_pipeline (fun answers => answers == st.answers) st.time_limit
    st.points_awarded (st.timer now) st.user_answers tm watchers alive

/-- `Slide::change_state(before, after)` of the order engine. -/
def Slide.change_state (st : Slide) (before after : SlideState) : Slide × Bool :=
  if st.state = before then ({ st with state := after }, true) else (st, false)

/-- `Slide::start_timer`, with `SystemTime::now()` passed in as `now`. -/
def Slide.start_timer (st : Slide) (now : Nat) : Slide :=
  { st with answer_start := some now }

/-- `Slide::send_answers_announcements`, projected to its slide-state
effect: on the `Question → Answers` transition the shuffled answers are
drawn (`fastrand::shuffle`, the external `shuffle` parameter) and the
timer starts. -/
def Slide.send_answers_announcements (st : Slide) (shuffle : List String → List String)
    (now : Nat) : Slide :=
  let r := st.change_state .Question .Answers
  if r.2 then ({ r.1 with shuffled_answers := shuffle r.1.answers }).start_timer now
  else r.1

/-- `Slide::send_question_announcements` of the order engine, projected
to its slide-state effect: on the `Unstarted → Question` transition,
when `introduce_question` is zero the engine advances immediately into
`send_answers_announcements`, otherwise it only schedules an alarm. -/
def Slide.send_question_announcements (st : Slide) (shuffle : List String → List String)
    (now : Nat) : Slide :=
  let r := st.change_state .Unstarted .Question
  if r.2 then
    if r.1.introduce_question = 0 then r.1.send_answers_announcements shuffle now
    else r.1
  else r.1

/-- `Slide::send_answers_results`, projected to its slide-state effect. -/
def Slide.send_answers_results (st : Slide) : Slide :=
  (st.change_state .Answers .AnswersResults).1

/-- `Slide::play` of the order engine. -/
def Slide.play (st : Slide) (shuffle : List String → List String) (now : Nat) : Slide :=
  st.send_question_announcements shuffle now

/-- `Slide::receive_message` of the order engine, projected to the new
slide state, the leaderboard and the completion flag; `none` is the
panic inside `add_scores`. -/
def Slide.receive_message (st : Slide) (shuffle : List String → List String)
    (watcher_id : Id) (message : IncomingMessage) (lb : Leaderboard) (watchers : Watchers)
    (tm : Option TeamManager) (alive : Id → Bool) (now : Nat) :
    Option (Slide × Leaderboard × Bool) :=
  match message with
  | .Host .Next =>
    match st.state with
    | .Unstarted => some (st.send_question_announcements shuffle now, lb, false)
    | .Question => some (st.send_answers_announcements shuffle now, lb, false)
    | .Answers => some (st.send_answers_results, lb, false)
    | .AnswersResults =>
      match st.add_scores_deltas watchers tm alive now with
      | none => none
      | some deltas => some (st, lb.add_scores deltas, true)
  | .Player (.StringArrayAnswer v) =>
    let st' := { st with user_answers := alist_put st.user_answers watcher_id (v, now) }
    if (watchers.specific_ids .Player alive).all (fun id => alist_has st'.user_answers id)
    then some (st'.send_answers_results, lb, false)
    else some (st', lb, false)
  | _ => some (st, lb, false)

/-- `Slide::receive_alarm` of the order engine: only an `Order` alarm is
examined, its `index` field is ignored, and only the `Answers` and
`AnswersResults` targets act. -/
def Slide.receive_alarm (st : Slide) (shuffle : List String → List String)
    (message : AlarmMessage) (now : Nat) : Slide :=
  match message with
  | .Order _ to_state =>
    match to_state with
    | .Answers => st.send_answers_announcements shuffle now
    | .AnswersResults => st.send_answers_results
    | _ => st
  | _ => st

end OrderSlide

/-! ### Team formation (`teams.rs`): `finalize` and `add_player` -/

/-- External effects injected into `finalize`: `fastrand::shuffle` (an
arbitrary permutation), `Id::new()` (a stream of fresh uuids), and the
pluralized title-cased petname draws, together with the rustrict
functions consumed by `names.set_name`. -/
structure FinalizeEnv : Type where
  shuffle : List Id → List Id
  team_id_gen : Nat → Id
  petname_gen : Nat → String
  trim : String → String
  inappropriate : String → Bool

/-- The "mutual anchor" computed in `finalize` for a player: the least id
among the player's preferred teammates that prefer the player back,
defaulted to and capped by the player's own id
(`…min().unwrap_or(id).min(id)`). -/
def mutual_anchor (preferences : Option (List (Id × List Id))) (id : Id) : Id :=
  let get_pref : Id → List Id := fun p =>
    match preferences with
    | none => []
    | some m => (alist_get m p).getD []
  min (((get_pref id).filter (fun pref => (get_pref pref).contains id)).min?.getD id) id

/-- `itertools::group_by` over the sorted `(anchor, id)` pairs: groups of
consecutive pairs with equal anchors. -/
def chunk_by_anchor : List (Id × Id) → List (List (Id × Id))
  | [] => []
  | a :: rest =>
    match chunk_by_anchor rest with
    | [] => [[a]]
    | [] :: gs => [a] :: gs
    | (b :: g) :: gs =>
      if a.1 = b.1 then (a :: b :: g) :: gs else [a] :: (b :: g) :: gs

/-- Strict lexicographic order on id vectors (the `Ord` instance of
`Vec<Id>`). -/
def list_id_lt : List Id → List Id → Bool
  | _, [] => false
  | [], _ :: _ => true
  | a :: as, b :: bs => if a < b then true else if a = b then list_id_lt as bs else false

/-- The derived `Ord` of `PreferenceGroup(usize, Vec<Id>)`: lexicographic
on size then membership vector. -/
def pg_lt (a b : Nat × List Id) : Bool :=
  if a.1 < b.1 then true else if a.1 = b.1 then list_id_lt a.2 b.2 else false

/-- `BTreeSet::insert` on the ascending list model (equal elements are not
duplicated). -/
def tree_insert (x : Nat × List Id) : List (Nat × List Id) → List (Nat × List Id)
  | [] => [x]
  | y :: t => if pg_lt x y then x :: y :: t else if x = y then y :: t else y :: tree_insert x t

/-- One step of the merge loop of `finalize`: look for the largest group
of size at most `optimal_size - prefs.len()` (the `range(..).next_back()`
over the tree), merge `prefs` into it, or insert `prefs` on its own.
The `usize` expression `optimal_size - prefs.len() + 1` is embedded with
saturating subtraction; the underflow case (a preference group larger
than the target size) panics in a debug build and is not relied on
below. -/
def merge_step (optimal_size : Nat) (tree : List (Nat × List Id)) (prefs : List Id) :
    List (Nat × List Id) :=
  match (tree.filter (fun y => pg_lt y (optimal_size - prefs.length + 1, []))).getLast? with
  | some b => tree_insert (prefs.length + b.1, prefs ++ b.2) (tree.erase b)
  | none => tree_insert (prefs.length, prefs) tree

/-- The name-drawing loop of `finalize`: draw petnames until
`names.set_name(team_id, …)` accepts one; the fuel bounds the loop and
exhaustion (`none`) covers both divergence and the
`.expect("Petname failed")` panic. -/
def draw_team_name (env : FinalizeEnv) (names : Names) (team_id : Id) :
    Nat → Nat → Option (String × Names × Nat)
  | _, 0 => none
  | k, fuel + 1 =>
    match Names.set_name env.trim env.inappropriate names team_id (env.petname_gen k) with
    | (.ok name, ns) => some (name, ns, k + 1)
    | (.error _, ns) => draw_team_name env ns team_id (k + 1) fuel

/-- The closing fold of `finalize`: for every group allocate a fresh team
id, draw a unique team name, record the player→team and team→players
mappings and rewrite every member's watcher value. -/
def build_teams (env : FinalizeEnv) (fuel : Nat) :
    List (List Id) → Nat → Nat → TeamManager → Watchers → Names →
    Option (List (Id × String) × TeamManager × Watchers × Names)
  | [], _, _, tm, w, ns => some ([], tm, w, ns)
  | g :: gs, id_k, name_k, tm, w, ns =>
    let team_id := env.team_id_gen id_k
    match draw_team_name env ns team_id name_k fuel with
    | none => none
    | some (team_name, ns, name_k') =>
      let tm' := { tm with
        player_to_team := g.foldl (fun m p => alist_put m p team_id) tm.player_to_team }
      let w' := g.enum.foldl
        (fun w e => w.update_watcher_value e.2
          (.Player (.Team team_name ((ns.get_name e.2).getD "") team_id e.1))) w
      let tm'' := { tm' with
        team_to_players := alist_put tm'.team_to_players team_id g }
      match build_teams env fuel gs (id_k + 1) name_k' tm'' w' ns with
      | none => none
      | some (rest, tm, w, ns) => some ((team_id, team_name) :: rest, tm, w, ns)

/-- `TeamManager::finalize`: a no-op when the `teams` cell is already
initialized; otherwise partition the live players into preference groups
by mutual anchor, shuffle inside groups, sort by descending size, merge
down to the target team count, and build the teams. -/
def TeamManager.finalize (tm : TeamManager) (watchers : Watchers) (names : Names)
    (alive : Id → Bool) (env : FinalizeEnv) (fuel : Nat) :
    Option (TeamManager × Watchers × Names) :=
  match tm.teams with
  | some _ => some (tm, watchers, names)
  | none =>
    let players := watchers.specific_ids .Player alive
    let teams_count := max ((players.length + tm.optimal_size - 1) / tm.optimal_size) 1
    let pairs := players.map (fun id => (mutual_anchor tm.preferences id, id))
    let sorted := sort_by_stable (fun a b => decide (a.1 < b.1 ∨ (a.1 = b.1 ∧ a.2 ≤ b.2))) pairs
    let grouped := (chunk_by_anchor sorted).map (fun g => env.shuffle (g.map (fun e => e.2)))
    let grouped := (sort_by_stable (fun a b => decide (a.length ≤ b.length)) grouped).reverse
    let grouped :=
      if teams_count < grouped.length then
        (grouped.foldl (fun tree prefs => merge_step tm.optimal_size tree prefs) []).map
          (fun e => e.2)
      else grouped
    match build_teams env fuel grouped 0 0 tm watchers names with
    | none => none
    | some (final_teams, tm, w, ns) =>
      some ({ tm with teams := some final_teams }, w, ns)

/-- `TeamManager::add_player`: before finalization, `None` without any
mutation.  After finalization, unconditionally pick the round-robin
target `teams[next_index % teams.len()]`, advance the counter, (re)assign
the player to that team, append the player to the team's list unless
already present, rewrite the watcher value, and return the target team's
name.  The `%` of `next_index % teams.len()` (a panic for an empty team
vector) and the two `.expect(…)` calls become the `none` of the outer
`Option`. -/
def TeamManager.add_player (tm : TeamManager) (player_id : Id) (watchers : Watchers) :
    Option (Option String × TeamManager × Watchers) :=
  match tm.teams with
  | none => some (none, tm, watchers)
  | some teams =>
    let next_index := tm.next_team_to_receive_player
    let tm' := { tm with next_team_to_receive_player := next_index + 1 }
    match teams.get? (next_index % teams.length) with
    | none => none
    | some (team_id, team_name) =>
      let tm'' := { tm' with
        player_to_team := alist_put tm'.player_to_team player_id team_id }
      match alist_get tm''.team_to_players team_id with
      | none => none
      | some p =>
        let pos := p.findIdx? (fun x => x == player_id)
        let player_index := pos.getD p.length
        let p' := match pos with
          | some _ => p
          | none => p ++ [player_id]
        let tm''' := { tm'' with
          team_to_players := alist_put tm''.team_to_players team_id p' }
        let w' := watchers.update_watcher_value player_id
          (.Player (.Team team_name ((watchers.get_name player_id).getD "") team_id
            player_index))
        some (some team_name, tm''', w')

/-! ### The game dispatcher (`game_manager/game.rs`) -/

/-- Game phase (`State` of `game_manager/game.rs`). -/
inductive GameState : Type
  | WaitingScreen
  | TeamDisplay
  | Slide (i : Nat)
  | Leaderboard (i : Nat)
  | Done
deriving DecidableEq, Repr

/-- The game.  The fields inspected by the dispatch logic of
`receive_message` and `receive_alarm` are explicit; every remaining field
(`fuiz_config`, `names`, `leaderboard`, `team_manager`, `options` beyond
`random_names`) is gathered in `rest`, mutated only by the injected
branch handlers. -/
structure Game (ρ : Type) : Type where
  watchers : Watchers
  state : GameState
  locked : Bool
  random_names : Bool
  rest : ρ

/-- The branch bodies of `receive_message`/`receive_alarm` that do not
decide the dispatch: each is the corresponding call in
`game_manager/game.rs`, taken as an opaque state transformer so that the
dispatch-order facts below hold for the actual bodies (whatever they
do to the game). -/
structure GameHandlers (ρ : Type) : Type where
  name_request : Game ρ → Id → String → Game ρ
  choose_teammates : Game ρ → Id → List String → Game ρ
  host_play : Game ρ → Game ρ
  slide_message : Game ρ → Nat → Id → IncomingMessage → Game ρ
  leaderboard_next : Game ρ → Nat → Game ρ
  done_next : Game ρ → Game ρ
  slide_alarm : Game ρ → Nat → AlarmMessage → Game ρ

/-- The catch-all `message => match self.state { … }` arm of
`receive_message`. -/
def Game.state_dispatch {ρ : Type} (h : GameHandlers ρ) (g : Game ρ) (watcher_id : Id)
    (message : IncomingMessage) : Game ρ :=
  match g.state with
  | .WaitingScreen | .TeamDisplay =>
    match message with
    | .Host .Next => h.host_play g
    | _ => g
  | .Slide index => h.slide_message g index watcher_id message
  | .Leaderboard index =>
    match message with
    | .Host .Next => h.leaderboard_next g index
    | _ => g
  | .Done =>
    match message with
    | .Host .Next => h.done_next g
    | _ => g

/-- `Game::receive_message`: drop the frame when the sender id is unknown
or the message category does not follow the sender's role, then dispatch
by arm order of the source `match`. -/
def Game.receive_message {ρ : Type} (h : GameHandlers ρ) (g : Game ρ) (watcher_id : Id)
    (message : IncomingMessage) : Game ρ :=
  match g.watchers.get_watcher_value watcher_id with
  | none => g
  | some value =>
    if message.follows value.kind then
      match message with
      | .Unassigned um =>
        if g.locked then g
        else
          match um with
          | .NameRequest s =>
            if ¬ g.random_names then h.name_request g watcher_id s
            else g.state_dispatch h watcher_id message
      | .Host (.Lock b) => { g with locked := b }
      | .Player (.ChooseTeammates prefs) => h.choose_teammates g watcher_id prefs
      | _ => g.state_dispatch h watcher_id message
    else g

/-- `Game::receive_alarm`: the alarm acts only when the game is on the
slide the alarm was scheduled for; stale alarms are dropped.  (The
`AlarmMessage` enum of `game_manager` has only the `MultipleChoice`
variant; the others cannot reach it and are dropped here.) -/
def Game.receive_alarm {ρ : Type} (h : GameHandlers ρ) (g : Game ρ)
    (message : AlarmMessage) : Game ρ :=
  match message with
  | .MultipleChoice slide_index _ =>
    match g.state with
    | .Slide current_index =>
      if current_index = slide_index then h.slide_alarm g current_index message else g
    | _ => g
  | _ => g

/-! ### Generic association-list lemmas -/

theorem alist_get_put_self {α β : Type} [DecidableEq α] (l : List (α × β)) (k : α) (v : β) :
    alist_get (alist_put l k v) k = some v := by
  induction l with
  | nil => simp [alist_put]
  | cons hd tl ih =>
    obtain ⟨a, b⟩ := hd
    by_cases hak : a = k
    · simp [alist_put, hak]
    · simp [alist_put, hak, ih]

theorem alist_get_put_ne {α β : Type} [DecidableEq α] (l : List (α × β)) (k k' : α) (v : β)
    (hne : k ≠ k') : alist_get (alist_put l k v) k' = alist_get l k' := by
  induction l with
  | nil => simp [alist_put, hne]
  | cons hd tl ih =>
    obtain ⟨a, b⟩ := hd
    by_cases hak : a = k
    · subst hak
      simp [alist_put, hne]
    · simp only [alist_put, if_neg hak, alist_get_cons, ih]

theorem alist_get_append {α β : Type} [DecidableEq α] (l₁ l₂ : List (α × β)) (k : α) :
    alist_get (l₁ ++ l₂) k = ((alist_get l₁ k).elim (alist_get l₂ k) some) := by
  induction l₁ with
  | nil => simp
  | cons hd tl ih =>
    obtain ⟨a, b⟩ := hd
    by_cases hak : a = k <;> simp [hak, ih]

/-! ### C10: game-id parsing and index clamping -/

/-- C10: `GameId::from_str` is a bare octal `u16` parse that succeeds with
no range check (witnessed by `00001`, below the documented minimum
`MIN_VALUE`, and by `100000` = 32768, at/above the documented exclusive
maximum, both accepted), and `Enum::into_usize` clamps every value —
indeed every natural number — into `[0, LENGTH)`, so indexing the
per-game array with a parsed id stays in bounds. -/
theorem C10_game_id_parse_and_clamp :
    (∀ v : Nat, GameId.into_usize v < GameId.LENGTH)
    ∧ GameId.from_str "00001" = some 1 ∧ 1 < MIN_VALUE
    ∧ GameId.from_str "100000" = some 32768 ∧ MAX_VALUE ≤ 32768
    ∧ GameId.from_str "177777" = some 65535 := by
  refine ⟨fun v => ?_, by decide, by decide, by decide, by decide, by decide⟩
  have h1 : GameId.into_usize v ≤ GameId.LENGTH - 1 := Nat.min_le_right _ _
  have h2 : (0 : Nat) < GameId.LENGTH := by decide
  omega

/-! ### C2: the name registry is not all-or-nothing on `Assigned` -/

/-- C2 (evidence for the code bug): on the failing input — a registry
where id 1 already holds the name `alice`, and a `set_name(1, "bob")`
call — the library `set_name` of `names.rs` returns `Err(Assigned)` but
leaves `bob` behind in the taken-name set, while the `game_manager`
variant of the very same operation releases the reservation and restores
the registry exactly; the external trim and profanity functions are
instantiated with the identity and the constantly-false filter, which is
their behavior on these inputs. -/
theorem C2_set_name_assigned_leaks_reservation :
    Names.set_name (fun s => s) (fun _ => false)
        { mapping := [(1, "alice")], reverse_mapping := [("alice", 1)],
          existing := ["alice"] } 1 "bob" =
      (.error .Assigned,
        { mapping := [(1, "alice")], reverse_mapping := [("alice", 1)],
          existing := ["bob", "alice"] })
    ∧ Names.gm_set_name (fun s => s) (fun _ => false)
        { mapping := [(1, "alice")], reverse_mapping := [("alice", 1)],
          existing := ["alice"] } 1 "bob" =
      (.error .Assigned,
        { mapping := [(1, "alice")], reverse_mapping := [("alice", 1)],
          existing := ["alice"] }) := by
  exact ⟨rfl, rfl⟩

/-! ### C7: mismatched frames and stale alarms are silently dropped -/

/-- C7: whatever the branch handlers do, `Game::receive_message` returns
the game unchanged when the sender id is unknown or when the message's
category does not follow the sender's role, and `Game::receive_alarm`
returns the game unchanged when the alarm's slide index differs from the
current slide index (in particular whenever the game is not on a slide);
no error is produced in any of these cases. -/
theorem C7_mismatched_frames_dropped {ρ : Type} (h : GameHandlers ρ) (g : Game ρ)
    (watcher_id : Id) (message : IncomingMessage) :
    (g.watchers.get_watcher_value watcher_id = none →
      Game.receive_message h g watcher_id message = g)
    ∧ (∀ value, g.watchers.get_watcher_value watcher_id = some value →
        message.follows value.kind = false →
        Game.receive_message h g watcher_id message = g)
    ∧ (∀ (slide_index : Nat) (to_state : SlideState),
        (∀ current, g.state = GameState.Slide current → current ≠ slide_index) →
        Game.receive_alarm h g (AlarmMessage.MultipleChoice slide_index to_state) = g) := by
  refine ⟨fun hnone => ?_, fun value hval hfol => ?_, fun slide_index to_state hcur => ?_⟩
  · simp [Game.receive_message, hnone]
  · simp [Game.receive_message, hval, hfol]
  · unfold Game.receive_alarm
    match hst : g.state with
    | .WaitingScreen | .TeamDisplay | .Leaderboard _ | .Done => simp
    | .Slide current => simp [hcur current hst]

/-- Handlers that keep the game unchanged, used to instantiate the
dispatch facts at concrete inputs. -/
def unit_handlers : GameHandlers Unit :=
  { name_request := fun g _ _ => g
    choose_teammates := fun g _ _ => g
    host_play := fun g => g
    slide_message := fun g _ _ _ => g
    leaderboard_next := fun g _ => g
    done_next := fun g => g
    slide_alarm := fun g _ _ => g }

/-- A concrete game on slide 0 whose only watcher is the host, id 1. -/
def witness_game : Game Unit :=
  { watchers := Watchers.with_host_id 1
    state := .Slide 0
    locked := false
    random_names := false
    rest := () }

/-- C7 witness: the dispatch facts instantiated at the concrete game —
an unknown sender id 5, a host (id 1) sending a player frame, and an
alarm for slide 1 while the game is on slide 0. -/
theorem C7_mismatched_frames_dropped_witness :
    Game.receive_message unit_handlers witness_game 5 (.Host .Next) = witness_game
    ∧ Game.receive_message unit_handlers witness_game 1
        (.Player (.IndexAnswer 0)) = witness_game
    ∧ Game.receive_alarm unit_handlers witness_game
        (AlarmMessage.MultipleChoice 1 .Answers) = witness_game := by
  refine ⟨(C7_mismatched_frames_dropped unit_handlers witness_game 5 (.Host .Next)).1 rfl,
    (C7_mismatched_frames_dropped unit_handlers witness_game 1
      (.Player (.IndexAnswer 0))).2.1 Value.Host rfl rfl,
    (C7_mismatched_frames_dropped unit_handlers witness_game 1
      (.Host .Next)).2.2 1 .Answers ?_⟩
  intro current hc
  have : current = 0 := by
    have := hc
    simp [witness_game] at this
    omega
  omega

/-! ### Lemmas about the score-delta pipeline -/

/-- Specification-side minimum of a score list. -/
def min_score : List Nat → Option Nat
  | [] => none
  | s :: rest =>
    some (match min_score rest with
      | none => s
      | some m => min s m)

theorem min_score_mem_le : ∀ (l : List Nat) (m : Nat), min_score l = some m →
    m ∈ l ∧ ∀ s ∈ l, m ≤ s := by
  intro l
  induction l with
  | nil => intro m h; simp [min_score] at h
  | cons s rest ih =>
    intro m h
    simp only [min_score] at h
    match hr : min_score rest with
    | none =>
      rw [hr] at h
      have hm : m = s := by simpa using h.symm
      subst hm
      have : rest = [] := by
        cases rest with
        | nil => rfl
        | cons a t => simp [min_score] at hr
      subst this
      simp
    | some m' =>
      rw [hr] at h
      have hm : m = min s m' := by simpa using h.symm
      obtain ⟨hmem, hle⟩ := ih m' hr
      subst hm
      constructor
      · rcases Nat.le_total s m' with hsm | hms
        · simp [Nat.min_eq_left hsm]
        · have : min s m' = m' := Nat.min_eq_right hms
          rw [this]
          exact List.mem_cons_of_mem _ hmem
      · intro x hx
        rcases List.mem_cons.mp hx with rfl | hx
        · exact Nat.min_le_left _ _
        · exact le_trans (Nat.min_le_right _ _) (hle x hx)

theorem min_score_ne_nil {l : List Nat} (h : l ≠ []) : (min_score l).isSome := by
  cases l with
  | nil => exact absurd rfl h
  | cons s rest => simp [min_score]

/-- When every submission instant is at or after the starting instant,
the scored-entries map succeeds and computes the per-submitter score. -/
theorem scored_entries_eq {α : Type} (correct : α → Bool) (tl pa si : Nat)
    (ua : List (Id × (α × Nat))) (h : ∀ e ∈ ua, si ≤ e.2.2) :
    scored_entries correct tl pa si ua =
      some (ua.map (fun e =>
        (e.1, if correct e.2.1 then calculate_score tl (e.2.2 - si) pa else 0))) := by
  induction ua with
  | nil => rfl
  | cons hd tl' ih =>
    obtain ⟨id, answer, instant⟩ := hd
    have hhd : si ≤ instant := h (id, answer, instant) (List.mem_cons_self _ _)
    have hrest : ∀ e ∈ tl', si ≤ e.2.2 := fun e he => h e (List.mem_cons_of_mem _ he)
    simp only [scored_entries, duration_since, if_pos hhd, ih hrest]
    by_cases hc : correct answer <;> simp [hc]

/-- The association-list lookup into the grouped minima is exactly the
minimum of the scores whose grouping key matches. -/
theorem group_min_scores_lookup (team_of : Id → Id) (t : Id) :
    ∀ l : List (Id × Nat),
      alist_get (group_min_scores team_of l) t =
        min_score ((l.filter (fun e => decide (team_of e.1 = t))).map Prod.snd) := by
  intro l
  induction l with
  | nil => rfl
  | cons hd rest ih =>
    obtain ⟨id, s⟩ := hd
    by_cases ht : team_of id = t
    · simp only [group_min_scores, ht, List.filter_cons, decide_eq_true_eq, if_pos ht]
      match hg : alist_get (group_min_scores team_of rest) t with
      | none =>
        rw [hg] at ih
        have : (rest.filter (fun e => decide (team_of e.1 = t))).map Prod.snd = [] := by
          cases hfe : (rest.filter (fun e => decide (team_of e.1 = t))).map Prod.snd with
          | nil => rfl
          | cons a b => rw [hfe] at ih; simp [min_score] at ih
        simp only [ht, decide_True, List.map_cons, this, min_score]
        simp [alist_get, ht]
      | some m =>
        rw [hg] at ih
        simp only [ht, decide_True, List.map_cons, min_score, ← ih, hg]
        exact alist_get_put_self _ _ _
    · simp only [group_min_scores, List.filter_cons, decide_eq_true_eq, if_neg ht]
      match hg : alist_get (group_min_scores team_of rest) (team_of id) with
      | none =>
        rw [← ih]
        simp [alist_get, ht]
      | some m =>
        rw [← ih]
        exact alist_get_put_ne _ _ _ _ ht

/-- Lookup through `unique_by`: the first occurrence of a key wins, which
is the lookup of the raw list; keys already seen are gone. -/
theorem unique_by_key_lookup (k : Id) :
    ∀ (l : List (Id × Nat)) (seen : List Id),
      alist_get (unique_by_key seen l) k =
        if k ∈ seen then none else alist_get l k := by
  intro l
  induction l with
  | nil => intro seen; by_cases hk : k ∈ seen <;> simp [unique_by_key, hk]
  | cons hd rest ih =>
    intro seen
    obtain ⟨id, s⟩ := hd
    by_cases hid : id ∈ seen
    · simp only [unique_by_key, if_pos hid, ih]
      by_cases hk : k ∈ seen
      · simp [hk]
      · have hne : id ≠ k := fun hh => hk (hh ▸ hid)
        simp [hk, alist_get, hne]
    · simp only [unique_by_key, if_neg hid]
      by_cases hik : id = k
      · subst hik
        simp [hid, alist_get]
      · have := ih (id :: seen)
        simp only [alist_get, if_neg hik]
        rw [this]
        by_cases hk : k ∈ seen
        · simp [hk, List.mem_cons]
        · have : ¬ k ∈ id :: seen := by
            simp only [List.mem_cons]
            push_neg
            exact ⟨fun hh => hik hh.symm, hk⟩
          simp [hk, this]

/-- Lookup into the zero-entry tail. -/
theorem zeros_lookup (t : Id) :
    ∀ l : List Id,
      alist_get (l.map (fun id => (id, (0 : Nat)))) t = if t ∈ l then some 0 else none := by
  intro l
  induction l with
  | nil => simp
  | cons hd rest ih =>
    by_cases hh : hd = t
    · subst hh; simp [alist_get]
    · simp only [List.map_cons, alist_get_cons, if_neg hh, ih, List.mem_cons]
      have : ¬ t = hd := fun hh' => hh hh'.symm
      simp [this]

/-- The lookup of the full delta vector of `add_scores_pipeline`: the
minimum of the matching scored entries if any, else zero for the ids of
the zero-entry chain, else absent. -/
theorem add_scores_pipeline_lookup {α : Type} (correct : α → Bool) (tl pa si : Nat)
    (ua : List (Id × (α × Nat))) (tm : Option TeamManager) (watchers : Watchers)
    (alive : Id → Bool) (h : ∀ e ∈ ua, si ≤ e.2.2) (t : Id) :
    ∃ deltas, add_scores_pipeline correct tl pa si ua tm watchers alive = some deltas ∧
      alist_get deltas t =
        (match min_score (((ua.map (fun e =>
            (e.1, if correct e.2.1 then calculate_score tl (e.2.2 - si) pa else 0))).filter
              (fun e => decide (score_group_key tm e.1 = t))).map Prod.snd) with
          | some m => some m
          | none =>
            if t ∈ zero_score_ids tm watchers alive then some 0 else none) := by
  refine ⟨_, by rw [add_scores_pipeline, scored_entries_eq correct tl pa si ua h], ?_⟩
  rw [unique_by_key_lookup, if_neg (List.not_mem_nil t), alist_get_append,
    group_min_scores_lookup]
  generalize min_score (((ua.map (fun e =>
      (e.1, if correct e.2.1 then calculate_score tl (e.2.2 - si) pa else 0))).filter
        (fun e => decide (score_group_key tm e.1 = t))).map Prod.snd) = ms
  cases ms with
  | some m => simp
  | none => simp [zeros_lookup]

/-! ### C1: clock anomalies make scoring panic, not score zero -/

/-- C1 counterexample: a multiple-choice slide whose answering phase
started at instant 100 holding one correct submission stamped 50 (a
stored `answer_start` later than the submission's "now").  Scoring this
slide panics — `duration_since(...).expect("future is past the past")`,
embedded as `none` — instead of treating the elapsed time as zero. -/
theorem C1_clock_anomaly_scoring_panics :
    MultipleChoice.State.add_scores_deltas
      { config := { title := "q", media := none, introduce_question := 0,
                    time_limit := 10000, points_awarded := 1000,
                    answers := [{ correct := true, content := .Text "A" }] }
        user_answers := [(1, (0, 50))]
        answer_start := some 100
        state := .AnswersResults }
      (Watchers.with_host_id 0) none (fun _ => true) 200 = none := rfl

/-- C1 amended: in each of the three engines, scoring panics when some
correct submission carries a timestamp earlier than the stored
`answer_start` (see the counterexample); when every stored submission
timestamp is at or after the starting instant
(`answer_start.unwrap_or(now)`), computing the scores never fails. -/
theorem C1_amended_scoring_succeeds_without_anomaly :
    (∀ (st : MultipleChoice.State) (watchers : Watchers) (tm : Option TeamManager)
        (alive : Id → Bool) (now : Nat),
      (∀ e ∈ st.user_answers, st.timer now ≤ e.2.2) →
      (st.add_scores_deltas watchers tm alive now).isSome)
    ∧ (∀ (st : TypeAnswer.State) (watchers : Watchers) (tm : Option TeamManager)
        (alive : Id → Bool) (now : Nat),
      (∀ e ∈ st.user_answers, st.timer now ≤ e.2.2) →
      (st.add_scores_deltas watchers tm alive now).isSome)
    ∧ (∀ (st : OrderSlide.Slide) (watchers : Watchers) (tm : Option TeamManager)
        (alive : Id → Bool) (now : Nat),
      (∀ e ∈ st.user_answers, st.timer now ≤ e.2.2) →
      (st.add_scores_deltas watchers tm alive now).isSome) := by
  refine ⟨fun st w tm alive now h => ?_, fun st w tm alive now h => ?_,
    fun st w tm alive now h => ?_⟩
  · simp [MultipleChoice.State.add_scores_deltas, add_scores_pipeline,
      scored_entries_eq _ _ _ _ _ h]
  · simp [TypeAnswer.State.add_scores_deltas, add_scores_pipeline,
      scored_entries_eq _ _ _ _ _ h]
  · simp [OrderSlide.Slide.add_scores_deltas, add_scores_pipeline,
      scored_entries_eq _ _ _ _ _ h]

/-- C1 witness: the no-panic statement applied to a concrete slide of
each engine, one submission stamped at or after the start. -/
theorem C1_amended_scoring_succeeds_without_anomaly_witness :
    (MultipleChoice.State.add_scores_deltas
      { config := { title := "q", media := none, introduce_question := 0,
                    time_limit := 10000, points_awarded := 1000,
                    answers := [{ correct := true, content := .Text "A" }] }
        user_answers := [(1, (0, 150))]
        answer_start := some 100
        state := .AnswersResults }
      (Watchers.with_host_id 0) none (fun _ => true) 200).isSome
    ∧ (TypeAnswer.State.add_scores_deltas
      { config := { title := "q", media := none, introduce_question := 0,
                    time_limit := 10000, points_awarded := 1000,
                    answers := ["Paris"], case_sensitive := false }
        user_answers := [(1, ("paris", 150))]
        answer_start := some 100
        state := .AnswersResults }
      (Watchers.with_host_id 0) none (fun _ => true) 200).isSome
    ∧ (OrderSlide.Slide.add_scores_deltas
      { title := "q", media := none, introduce_question := 0,
        time_limit := 10000, points_awarded := 1000,
        answers := ["A", "B"], axis_from := none, axis_to := none,
        shuffled_answers := ["B", "A"]
        user_answers := [(1, (["A", "B"], 150))]
        answer_start := some 100
        state := .AnswersResults }
      (Watchers.with_host_id 0) none (fun _ => true) 200).isSome := by
  refine ⟨C1_amended_scoring_succeeds_without_anomaly.1 _ _ _ _ _ ?_,
    C1_amended_scoring_succeeds_without_anomaly.2.1 _ _ _ _ _ ?_,
    C1_amended_scoring_succeeds_without_anomaly.2.2 _ _ _ _ _ ?_⟩ <;>
    · intro e he
      simp only [List.mem_singleton] at he
      subst he
      decide

/-! ### C3: point formula for a correct answer, solo play -/

/-- The individual scores of the submitting players whose grouping key
(their team, or themselves when teamless) is `t`, in submission-storage
order: the specification-side description of one group of
`add_scores`. -/
def MultipleChoice.team_member_scores (st : MultipleChoice.State) (tm : Option TeamManager)
    (now : Nat) (t : Id) : List Nat :=
  ((st.user_answers.map (fun e =>
    (e.1, if MultipleChoice.answer_correct st.config.answers e.2.1
      then calculate_score st.config.time_limit (e.2.2 - st.timer now)
        st.config.points_awarded
      else 0))).filter
    (fun e => decide (score_group_key tm e.1 = t))).map Prod.snd

/-- C4: with teams enabled, the delta vector a multiple-choice slide
passes to the leaderboard credits each team that has at least one
submitting member with the minimum of its submitting members' individual
scores, and every team without a submission with a zero entry;
concretely, a team of two whose members would earn 900 (correct at
2000 ms) and 600 (correct at 8000 ms) on a 10000 ms slide worth 1000 is
credited exactly 600. -/
theorem C4_team_min_scoring (st : MultipleChoice.State) (watchers : Watchers)
    (tmv : TeamManager) (alive : Id → Bool) (now : Nat)
    (hts : ∀ e ∈ st.user_answers, st.timer now ≤ e.2.2) :
    (∃ deltas, st.add_scores_deltas watchers (some tmv) alive now = some deltas ∧
      ∀ t ∈ tmv.all_ids,
        (MultipleChoice.team_member_scores st (some tmv) now t ≠ [] →
          ∃ m, alist_get deltas t = some m ∧
            m ∈ MultipleChoice.team_member_scores st (some tmv) now t ∧
            ∀ s' ∈ MultipleChoice.team_member_scores st (some tmv) now t, m ≤ s')
        ∧ (MultipleChoice.team_member_scores st (some tmv) now t = [] →
          alist_get deltas t = some 0))
    ∧ MultipleChoice.State.add_scores_deltas
        { config := { title := "q", media := none, introduce_question := 0,
                      time_limit := 10000, points_awarded := 1000,
                      answers := [{ correct := true, content := .Text "A" }] }
          user_answers := [(1, (0, 2000)), (2, (0, 8000))]
          answer_start := some 0
          state := .AnswersResults }
        (Watchers.with_host_id 0)
        (some { player_to_team := [(1, 100), (2, 100)]
                team_to_players := [(100, [1, 2])]
                optimal_size := 2
                preferences := none
                teams := some [(100, "T")]
                next_team_to_receive_player := 0 })
        (fun _ => true) 9000 = some [(100, 600)] := by
  constructor
  · have hall : ∀ t : Id,
        ∃ deltas, st.add_scores_deltas watchers (some tmv) alive now = some deltas ∧
          alist_get deltas t =
            (match min_score (MultipleChoice.team_member_scores st (some tmv) now t) with
              | some m => some m
              | none => if t ∈ zero_score_ids (some tmv) watchers alive then some 0
                        else none) := by
      intro t
      exact add_scores_pipeline_lookup _ _ _ _ _ _ _ _ hts t
    obtain ⟨deltas, hdeltas, _⟩ := hall 0
    refine ⟨deltas, hdeltas, fun t htm => ?_⟩
    obtain ⟨deltas', hdeltas', hlook⟩ := hall t
    rw [hdeltas] at hdeltas'
    have hdd : deltas' = deltas := by
      injection hdeltas' with hh
      exact hh.symm
    subst hdd
    constructor
    · intro hne
      obtain ⟨m, hm⟩ := Option.isSome_iff_exists.mp (min_score_ne_nil hne)
      refine ⟨m, ?_, min_score_mem_le _ m hm⟩
      rw [hlook, hm]
    · intro hnil
      rw [hlook, hnil]
      simp only [min_score]
      have : t ∈ zero_score_ids (some tmv) watchers alive := by
        simp [zero_score_ids, htm]
      simp [this]
  · have h900 : calculate_score 10000 2000 1000 = 900 := by
      rw [calculate_score_eq _ _ _ (by norm_num) (by norm_num)]
    have h600 : calculate_score 10000 8000 1000 = 600 := by
      rw [calculate_score_eq _ _ _ (by norm_num) (by norm_num)]
    simp only [MultipleChoice.State.add_scores_deltas, add_scores_pipeline]
    rw [scored_entries_eq _ _ _ _ _ (by decide)]
    simp only [List.map_cons, List.map_nil, MultipleChoice.State.timer]
    norm_num [MultipleChoice.answer_correct, h900, h600]
    decide

/-- A multiple-choice slide with no submissions, for instantiating the
team-scoring facts. -/
def c4_state : MultipleChoice.State :=
  { config := { title := "q", media := none, introduce_question := 0,
                time_limit := 10000, points_awarded := 1000,
                answers := [{ correct := true, content := .Text "A" }] }
    user_answers := []
    answer_start := some 0
    state := .AnswersResults }

/-- A finalized manager with the single team 100. -/
def c4_teams : TeamManager :=
  { player_to_team := [(1, 100), (2, 100)]
    team_to_players := [(100, [1, 2])]
    optimal_size := 2
    preferences := none
    teams := some [(100, "T")]
    next_team_to_receive_player := 0 }

/-- C4 witness: the team-minimum statement applied at a concrete slide
and team manager (and the literal scenario-S4 delta vector). -/
theorem C4_team_min_scoring_witness :
    (∃ deltas, c4_state.add_scores_deltas (Watchers.with_host_id 0) (some c4_teams)
        (fun _ => true) 0 = some deltas ∧
      ∀ t ∈ c4_teams.all_ids,
        (MultipleChoice.team_member_scores c4_state (some c4_teams) 0 t ≠ [] →
          ∃ m, alist_get deltas t = some m ∧
            m ∈ MultipleChoice.team_member_scores c4_state (some c4_teams) 0 t ∧
            ∀ s' ∈ MultipleChoice.team_member_scores c4_state (some c4_teams) 0 t, m ≤ s')
        ∧ (MultipleChoice.team_member_scores c4_state (some c4_teams) 0 t = [] →
          alist_get deltas t = some 0))
    ∧ MultipleChoice.State.add_scores_deltas
        { config := { title := "q", media := none, introduce_question := 0,
                      time_limit := 10000, points_awarded := 1000,
                      answers := [{ correct := true, content := .Text "A" }] }
          user_answers := [(1, (0, 2000)), (2, (0, 8000))]
          answer_start := some 0
          state := .AnswersResults }
        (Watchers.with_host_id 0)
        (some { player_to_team := [(1, 100), (2, 100)]
                team_to_players := [(100, [1, 2])]
                optimal_size := 2
                preferences := none
                teams := some [(100, "T")]
                next_team_to_receive_player := 0 })
        (fun _ => true) 9000 = some [(100, 600)] :=
  C4_team_min_scoring c4_state (Watchers.with_host_id 0) c4_teams (fun _ => true) 0
    (fun e he => absurd he (List.not_mem_nil e))

/-! ### C6: forward-only phase transitions -/

theorem send_answers_announcements_state (st : MultipleChoice.State) (now : Nat) :
    (st.send_answers_announcements now).state =
      (if st.state = .Question then .Answers else st.state) := by
  unfold MultipleChoice.State.send_answers_announcements MultipleChoice.State.change_state
  by_cases h : st.state = .Question <;>
    simp [h, MultipleChoice.State.start_timer]

theorem send_question_announcements_state (st : MultipleChoice.State) (now : Nat) :
    (st.send_question_announcements now).state =
      (if st.state = .Unstarted then
        (if st.config.introduce_question = 0 then .Answers else .Question)
      else st.state) := by
  unfold MultipleChoice.State.send_question_announcements MultipleChoice.State.change_state
  by_cases h : st.state = .Unstarted
  · by_cases hz : st.config.introduce_question = 0 <;>
      simp [h, hz, send_answers_announcements_state,
        MultipleChoice.State.send_answers_announcements,
        MultipleChoice.State.change_state, MultipleChoice.State.start_timer]
  · simp [h]

theorem send_answers_results_state (st : MultipleChoice.State) :
    (st.send_answers_results).state =
      (if st.state = .Answers then .AnswersResults else st.state) := by
  unfold MultipleChoice.State.send_answers_results MultipleChoice.State.change_state
  by_cases h : st.state = .Answers <;> simp [h]

/-- One engine-driving event, with its `SystemTime::now()`. -/
inductive EngineEvent : Type
  | Play (now : Nat)
  | Msg (watcher_id : Id) (message : IncomingMessage) (now : Nat)
  | Alarm (message : AlarmMessage) (now : Nat)

/-- One dispatch of an event into the multiple-choice engine. -/
def engine_step (watchers : Watchers) (tm : Option TeamManager) (alive : Id → Bool)
    (s : MultipleChoice.State × Leaderboard) :
    EngineEvent → Option (MultipleChoice.State × Leaderboard)
  | .Play now => some (s.1.play now, s.2)
  | .Msg watcher_id message now =>
    match s.1.receive_message watcher_id message s.2 watchers tm alive now with
    | none => none
    | some (st, lb, _) => some (st, lb)
  | .Alarm message now => some (s.1.receive_alarm message now, s.2)

/-- A sequence of engine events, stopping at a panic. -/
def engine_run (watchers : Watchers) (tm : Option TeamManager) (alive : Id → Bool) :
    MultipleChoice.State × Leaderboard → List EngineEvent →
    Option (MultipleChoice.State × Leaderboard)
  | s, [] => some s
  | s, e :: rest =>
    match engine_step watchers tm alive s e with
    | none => none
    | some s' => engine_run watchers tm alive s' rest

theorem receive_message_rank_le (st : MultipleChoice.State) (watcher_id : Id)
    (message : IncomingMessage) (lb : Leaderboard) (watchers : Watchers)
    (tm : Option TeamManager) (alive : Id → Bool) (now : Nat)
    (r : MultipleChoice.State × Leaderboard × Bool)
    (h : st.receive_message watcher_id message lb watchers tm alive now = some r) :
    st.state.rank ≤ r.1.state.rank := by
  unfold MultipleChoice.State.receive_message at h
  match message with
  | .Host .Next =>
    match hst : st.state with
    | .Unstarted =>
      rw [hst] at h
      injection h with h
      subst h
      simp only [send_question_announcements_state, hst, if_pos rfl]
      by_cases hz : st.config.introduce_question = 0 <;> simp [hz, hst, SlideState.rank]
    | .Question =>
      rw [hst] at h
      injection h with h
      subst h
      simp [send_answers_announcements_state, hst, SlideState.rank]
    | .Answers =>
      rw [hst] at h
      injection h with h
      subst h
      simp [send_answers_results_state, hst, SlideState.rank]
    | .AnswersResults =>
      rw [hst] at h
      match hd : st.add_scores_deltas watchers tm alive now with
      | none => rw [hd] at h; exact absurd h (by simp)
      | some deltas =>
        rw [hd] at h
        injection h with h
        subst h
        simp [hst]
  | .Host (.Index i) => injection h with h; subst h; exact le_refl _
  | .Host (.Lock b) => injection h with h; subst h; exact le_refl _
  | .Ghost m => injection h with h; subst h; exact le_refl _
  | .Unassigned m => injection h with h; subst h; exact le_refl _
  | .Player (.StringAnswer s') => injection h with h; subst h; exact le_refl _
  | .Player (.StringArrayAnswer v) => injection h with h; subst h; exact le_refl _
  | .Player (.ChooseTeammates v) => injection h with h; subst h; exact le_refl _
  | .Player (.IndexAnswer v) =>
    dsimp only [] at h
    by_cases hv : v < st.config.answers.length
    · rw [if_pos hv] at h
      set st' : MultipleChoice.State :=
        { st with user_answers := alist_put st.user_answers watcher_id (v, now) } with hst'
      by_cases hall : ((watchers.specific_ids .Player alive).all
          (fun id => alist_has st'.user_answers id)) = true
      · rw [if_pos hall] at h
        injection h with h
        subst h
        have : st'.state = st.state := rfl
        simp only [send_answers_results_state, this]
        by_cases ha : st.state = .Answers <;> simp [ha, SlideState.rank]
      · rw [if_neg hall] at h
        injection h with h
        subst h
        exact le_refl _
    · rw [if_neg hv] at h
      injection h with h
      subst h
      exact le_refl _

theorem receive_alarm_rank_le (st : MultipleChoice.State) (message : AlarmMessage)
    (now : Nat) : st.state.rank ≤ (st.receive_alarm message now).state.rank := by
  unfold MultipleChoice.State.receive_alarm
  match message with
  | .TypeAnswer i t => exact le_refl _
  | .Order i t => exact le_refl _
  | .MultipleChoice i t =>
    match t with
    | .Unstarted => exact le_refl _
    | .Question => exact le_refl _
    | .Answers =>
      simp only [send_answers_announcements_state]
      by_cases h : st.state = .Question <;> simp [h, SlideState.rank]
    | .AnswersResults =>
      simp only [send_answers_results_state]
      by_cases h : st.state = .Answers <;> simp [h, SlideState.rank]

theorem play_rank_le (st : MultipleChoice.State) (now : Nat) :
    st.state.rank ≤ (st.play now).state.rank := by
  unfold MultipleChoice.State.play
  simp only [send_question_announcements_state]
  by_cases h : st.state = .Unstarted
  · by_cases hz : st.config.introduce_question = 0 <;> simp [h, hz, SlideState.rank]
  · simp [h]

theorem engine_run_rank_le (watchers : Watchers) (tm : Option TeamManager)
    (alive : Id → Bool) :
    ∀ (events : List EngineEvent) (s s' : MultipleChoice.State × Leaderboard),
      engine_run watchers tm alive s events = some s' →
      s.1.state.rank ≤ s'.1.state.rank := by
  intro events
  induction events with
  | nil =>
    intro s s' h
    injection h with h
    subst h
    exact le_refl _
  | cons e rest ih =>
    intro s s' h
    unfold engine_run at h
    match hstep : engine_step watchers tm alive s e with
    | none => rw [hstep] at h; exact absurd h (by simp)
    | some s1 =>
      rw [hstep] at h
      refine le_trans ?_ (ih s1 s' h)
      match e with
      | .Play now =>
        dsimp only [engine_step] at hstep
        injection hstep with hstep
        subst hstep
        exact play_rank_le s.1 now
      | .Msg wid m now =>
        dsimp only [engine_step] at hstep
        match hmsg : s.1.receive_message wid m s.2 watchers tm alive now with
        | none => rw [hmsg] at hstep; exact absurd hstep (by simp)
        | some (st2, lb2, b2) =>
          rw [hmsg] at hstep
          injection hstep with hstep
          subst hstep
          exact receive_message_rank_le s.1 wid m s.2 watchers tm alive now _ hmsg
      | .Alarm m now =>
        dsimp only [engine_step] at hstep
        injection hstep with hstep
        subst hstep
        exact receive_alarm_rank_le s.1 m now

theorem ta_send_accepting_answers_state (st : TypeAnswer.State) (now : Nat) :
    (st.send_accepting_answers now).state =
      (if st.state = .Question then .Answers else st.state) := by
  unfold TypeAnswer.State.send_accepting_answers TypeAnswer.State.change_state
  by_cases h : st.state = .Question <;>
    simp [h, TypeAnswer.State.start_timer]

theorem ta_send_question_announcements_state (st : TypeAnswer.State) (now : Nat) :
    (st.send_question_announcements now).state =
      (if st.state = .Unstarted then
        (if st.config.introduce_question = 0 then .Answers else .Question)
      else st.state) := by
  unfold TypeAnswer.State.send_question_announcements TypeAnswer.State.change_state
  by_cases h : st.state = .Unstarted
  · by_cases hz : st.config.introduce_question = 0 <;>
      simp [h, hz, TypeAnswer.State.send_accepting_answers,
        TypeAnswer.State.change_state, TypeAnswer.State.start_timer]
  · simp [h]

theorem ta_send_answers_results_state (st : TypeAnswer.State) :
    (st.send_answers_results).state =
      (if st.state = .Answers then .AnswersResults else st.state) := by
  unfold TypeAnswer.State.send_answers_results TypeAnswer.State.change_state
  by_cases h : st.state = .Answers <;> simp [h]

theorem ord_send_answers_announcements_state (st : OrderSlide.Slide)
    (shuffle : List String → List String) (now : Nat) :
    (st.send_answers_announcements shuffle now).state =
      (if st.state = .Question then .Answers else st.state) := by
  unfold OrderSlide.Slide.send_answers_announcements OrderSlide.Slide.change_state
  by_cases h : st.state = .Question <;>
    simp [h, OrderSlide.Slide.start_timer]

theorem ord_send_question_announcements_state (st : OrderSlide.Slide)
    (shuffle : List String → List String) (now : Nat) :
    (st.send_question_announcements shuffle now).state =
      (if st.state = .Unstarted then
        (if st.introduce_question = 0 then .Answers else .Question)
      else st.state) := by
  unfold OrderSlide.Slide.send_question_announcements OrderSlide.Slide.change_state
  by_cases h : st.state = .Unstarted
  · by_cases hz : st.introduce_question = 0 <;>
      simp [h, hz, OrderSlide.Slide.send_answers_announcements,
        OrderSlide.Slide.change_state, OrderSlide.Slide.start_timer]
  · simp [h]

theorem ord_send_answers_results_state (st : OrderSlide.Slide) :
    (st.send_answers_results).state =
      (if st.state = .Answers then .AnswersResults else st.state) := by
  unfold OrderSlide.Slide.send_answers_results OrderSlide.Slide.change_state
  by_cases h : st.state = .Answers <;> simp [h]

/-- One dispatch of an event into the type-answer engine. -/
def ta_engine_step (watchers : Watchers) (tm : Option TeamManager) (alive : Id → Bool)
    (s : TypeAnswer.State × Leaderboard) :
    EngineEvent → Option (TypeAnswer.State × Leaderboard)
  | .Play now => some (s.1.play now, s.2)
  | .Msg watcher_id message now =>
    match s.1.receive_message watcher_id message s.2 watchers tm alive now with
    | none => none
    | some (st, lb, _) => some (st, lb)
  | .Alarm message now => some (s.1.receive_alarm message now, s.2)

/-- A sequence of type-answer engine events, stopping at a panic. -/
def ta_engine_run (watchers : Watchers) (tm : Option TeamManager) (alive : Id → Bool) :
    TypeAnswer.State × Leaderboard → List EngineEvent →
    Option (TypeAnswer.State × Leaderboard)
  | s, [] => some s
  | s, e :: rest =>
    match ta_engine_step watchers tm alive s e with
    | none => none
    | some s2 => ta_engine_run watchers tm alive s2 rest

/-- One dispatch of an event into the order engine. -/
def ord_engine_step (shuffle : List String → List String) (watchers : Watchers)
    (tm : Option TeamManager) (alive : Id → Bool)
    (s : OrderSlide.Slide × Leaderboard) :
    EngineEvent → Option (OrderSlide.Slide × Leaderboard)
  | .Play now => some (s.1.play shuffle now, s.2)
  | .Msg watcher_id message now =>
    match s.1.receive_message shuffle watcher_id message s.2 watchers tm alive now with
    | none => none
    | some (st, lb, _) => some (st, lb)
  | .Alarm message now => some (s.1.receive_alarm shuffle message now, s.2)

/-- A sequence of order engine events, stopping at a panic. -/
def ord_engine_run (shuffle : List String → List String) (watchers : Watchers)
    (tm : Option TeamManager) (alive : Id → Bool) :
    OrderSlide.Slide × Leaderboard → List EngineEvent →
    Option (OrderSlide.Slide × Leaderboard)
  | s, [] => some s
  | s, e :: rest =>
    match ord_engine_step shuffle watchers tm alive s e with
    | none => none
    | some s2 => ord_engine_run shuffle watchers tm alive s2 rest

theorem ta_receive_message_rank_le (st : TypeAnswer.State) (watcher_id : Id)
    (message : IncomingMessage) (lb : Leaderboard) (watchers : Watchers)
    (tm : Option TeamManager) (alive : Id → Bool) (now : Nat)
    (r : TypeAnswer.State × Leaderboard × Bool)
    (h : st.receive_message watcher_id message lb watchers tm alive now = some r) :
    st.state.rank ≤ r.1.state.rank := by
  unfold TypeAnswer.State.receive_message at h
  match message with
  | .Host .Next =>
    match hst : st.state with
    | .Unstarted =>
      rw [hst] at h
      injection h with h
      subst h
      simp only [ta_send_question_announcements_state, hst, if_pos rfl]
      by_cases hz : st.config.introduce_question = 0 <;> simp [hz, hst, SlideState.rank]
    | .Question =>
      rw [hst] at h
      injection h with h
      subst h
      simp [ta_send_accepting_answers_state, hst, SlideState.rank]
    | .Answers =>
      rw [hst] at h
      injection h with h
      subst h
      simp [ta_send_answers_results_state, hst, SlideState.rank]
    | .AnswersResults =>
      rw [hst] at h
      match hd : st.add_scores_deltas watchers tm alive now with
      | none => rw [hd] at h; exact absurd h (by simp)
      | some deltas =>
        rw [hd] at h
        injection h with h
        subst h
        simp [hst]
  | .Host (.Index i) => injection h with h; subst h; exact le_refl _
  | .Host (.Lock b) => injection h with h; subst h; exact le_refl _
  | .Ghost m => injection h with h; subst h; exact le_refl _
  | .Unassigned m => injection h with h; subst h; exact le_refl _
  | .Player (.IndexAnswer v) => injection h with h; subst h; exact le_refl _
  | .Player (.StringArrayAnswer v) => injection h with h; subst h; exact le_refl _
  | .Player (.ChooseTeammates v) => injection h with h; subst h; exact le_refl _
  | .Player (.StringAnswer v) =>
    dsimp only [] at h
    set st2 : TypeAnswer.State :=
      { st with user_answers := alist_put st.user_answers watcher_id (v, now) } with hst2
    by_cases hall : ((watchers.specific_ids .Player alive).all
        (fun id => alist_has st2.user_answers id)) = true
    · rw [if_pos hall] at h
      injection h with h
      subst h
      have hsame : st2.state = st.state := rfl
      simp only [ta_send_answers_results_state, hsame]
      by_cases ha : st.state = .Answers <;> simp [ha, SlideState.rank]
    · rw [if_neg hall] at h
      injection h with h
      subst h
      exact le_refl _

theorem ta_receive_alarm_rank_le (st : TypeAnswer.State) (message : AlarmMessage)
    (now : Nat) : st.state.rank ≤ (st.receive_alarm message now).state.rank := by
  unfold TypeAnswer.State.receive_alarm
  match message with
  | .MultipleChoice i t => exact le_refl _
  | .Order i t => exact le_refl _
  | .TypeAnswer i t =>
    match t with
    | .Unstarted => exact le_refl _
    | .Question => exact le_refl _
    | .Answers =>
      simp only [ta_send_accepting_answers_state]
      by_cases h : st.state = .Question <;> simp [h, SlideState.rank]
    | .AnswersResults =>
      simp only [ta_send_answers_results_state]
      by_cases h : st.state = .Answers <;> simp [h, SlideState.rank]

theorem ta_play_rank_le (st : TypeAnswer.State) (now : Nat) :
    st.state.rank ≤ (st.play now).state.rank := by
  unfold TypeAnswer.State.play
  simp only [ta_send_question_announcements_state]
  by_cases h : st.state = .Unstarted
  · by_cases hz : st.config.introduce_question = 0 <;> simp [h, hz, SlideState.rank]
  · simp [h]

theorem ta_engine_run_rank_le (watchers : Watchers) (tm : Option TeamManager)
    (alive : Id → Bool) :
    ∀ (events : List EngineEvent) (s s2 : TypeAnswer.State × Leaderboard),
      ta_engine_run watchers tm alive s events = some s2 →
      s.1.state.rank ≤ s2.1.state.rank := by
  intro events
  induction events with
  | nil =>
    intro s s2 h
    injection h with h
    subst h
    exact le_refl _
  | cons e rest ih =>
    intro s s2 h
    unfold ta_engine_run at h
    match hstep : ta_engine_step watchers tm alive s e with
    | none => rw [hstep] at h; exact absurd h (by simp)
    | some s1 =>
      rw [hstep] at h
      refine le_trans ?_ (ih s1 s2 h)
      match e with
      | .Play now =>
        dsimp only [ta_engine_step] at hstep
        injection hstep with hstep
        subst hstep
        exact ta_play_rank_le s.1 now
      | .Msg wid m now =>
        dsimp only [ta_engine_step] at hstep
        match hmsg : s.1.receive_message wid m s.2 watchers tm alive now with
        | none => rw [hmsg] at hstep; exact absurd hstep (by simp)
        | some (st2, lb2, b2) =>
          rw [hmsg] at hstep
          injection hstep with hstep
          subst hstep
          exact ta_receive_message_rank_le s.1 wid m s.2 watchers tm alive now _ hmsg
      | .Alarm m now =>
        dsimp only [ta_engine_step] at hstep
        injection hstep with hstep
        subst hstep
        exact ta_receive_alarm_rank_le s.1 m now

theorem ord_receive_message_rank_le (st : OrderSlide.Slide)
    (shuffle : List String → List String) (watcher_id : Id)
    (message : IncomingMessage) (lb : Leaderboard) (watchers : Watchers)
    (tm : Option TeamManager) (alive : Id → Bool) (now : Nat)
    (r : OrderSlide.Slide × Leaderboard × Bool)
    (h : st.receive_message shuffle watcher_id message lb watchers tm alive now = some r) :
    st.state.rank ≤ r.1.state.rank := by
  unfold OrderSlide.Slide.receive_message at h
  match message with
  | .Host .Next =>
    match hst : st.state with
    | .Unstarted =>
      rw [hst] at h
      injection h with h
      subst h
      simp only [ord_send_question_announcements_state, hst, if_pos rfl]
      by_cases hz : st.introduce_question = 0 <;> simp [hz, hst, SlideState.rank]
    | .Question =>
      rw [hst] at h
      injection h with h
      subst h
      simp [ord_send_answers_announcements_state, hst, SlideState.rank]
    | .Answers =>
      rw [hst] at h
      injection h with h
      subst h
      simp [ord_send_answers_results_state, hst, SlideState.rank]
    | .AnswersResults =>
      rw [hst] at h
      match hd : st.add_scores_deltas watchers tm alive now with
      | none => rw [hd] at h; exact absurd h (by simp)
      | some deltas =>
        rw [hd] at h
        injection h with h
        subst h
        simp [hst]
  | .Host (.Index i) => injection h with h; subst h; exact le_refl _
  | .Host (.Lock b) => injection h with h; subst h; exact le_refl _
  | .Ghost m => injection h with h; subst h; exact le_refl _
  | .Unassigned m => injection h with h; subst h; exact le_refl _
  | .Player (.IndexAnswer v) => injection h with h; subst h; exact le_refl _
  | .Player (.StringAnswer v) => injection h with h; subst h; exact le_refl _
  | .Player (.ChooseTeammates v) => injection h with h; subst h; exact le_refl _
  | .Player (.StringArrayAnswer v) =>
    dsimp only [] at h
    set st2 : OrderSlide.Slide :=
      { st with user_answers := alist_put st.user_answers watcher_id (v, now) } with hst2
    by_cases hall : ((watchers.specific_ids .Player alive).all
        (fun id => alist_has st2.user_answers id)) = true
    · rw [if_pos hall] at h
      injection h with h
      subst h
      have hsame : st2.state = st.state := rfl
      simp only [ord_send_answers_results_state, hsame]
      by_cases ha : st.state = .Answers <;> simp [ha, SlideState.rank]
    · rw [if_neg hall] at h
      injection h with h
      subst h
      exact le_refl _

theorem ord_receive_alarm_rank_le (st : OrderSlide.Slide)
    (shuffle : List String → List String) (message : AlarmMessage)
    (now : Nat) : st.state.rank ≤ (st.receive_alarm shuffle message now).state.rank := by
  unfold OrderSlide.Slide.receive_alarm
  match message with
  | .MultipleChoice i t => exact le_refl _
  | .TypeAnswer i t => exact le_refl _
  | .Order i t =>
    match t with
    | .Unstarted => exact le_refl _
    | .Question => exact le_refl _
    | .Answers =>
      simp only [ord_send_answers_announcements_state]
      by_cases h : st.state = .Question <;> simp [h, SlideState.rank]
    | .AnswersResults =>
      simp only [ord_send_answers_results_state]
      by_cases h : st.state = .Answers <;> simp [h, SlideState.rank]

theorem ord_play_rank_le (st : OrderSlide.Slide) (shuffle : List String → List String)
    (now : Nat) : st.state.rank ≤ (st.play shuffle now).state.rank := by
  unfold OrderSlide.Slide.play
  simp only [ord_send_question_announcements_state]
  by_cases h : st.state = .Unstarted
  · by_cases hz : st.introduce_question = 0 <;> simp [h, hz, SlideState.rank]
  · simp [h]

theorem ord_engine_run_rank_le (shuffle : List String → List String) (watchers : Watchers)
    (tm : Option TeamManager) (alive : Id → Bool) :
    ∀ (events : List EngineEvent) (s s2 : OrderSlide.Slide × Leaderboard),
      ord_engine_run shuffle watchers tm alive s events = some s2 →
      s.1.state.rank ≤ s2.1.state.rank := by
  intro events
  induction events with
  | nil =>
    intro s s2 h
    injection h with h
    subst h
    exact le_refl _
  | cons e rest ih =>
    intro s s2 h
    unfold ord_engine_run at h
    match hstep : ord_engine_step shuffle watchers tm alive s e with
    | none => rw [hstep] at h; exact absurd h (by simp)
    | some s1 =>
      rw [hstep] at h
      refine le_trans ?_ (ih s1 s2 h)
      match e with
      | .Play now =>
        dsimp only [ord_engine_step] at hstep
        injection hstep with hstep
        subst hstep
        exact ord_play_rank_le s.1 shuffle now
      | .Msg wid m now =>
        dsimp only [ord_engine_step] at hstep
        match hmsg : s.1.receive_message shuffle wid m s.2 watchers tm alive now with
        | none => rw [hmsg] at hstep; exact absurd hstep (by simp)
        | some (st2, lb2, b2) =>
          rw [hmsg] at hstep
          injection hstep with hstep
          subst hstep
          exact ord_receive_message_rank_le s.1 shuffle wid m s.2 watchers tm alive now _ hmsg
      | .Alarm m now =>
        dsimp only [ord_engine_step] at hstep
        injection hstep with hstep
        subst hstep
        exact ord_receive_alarm_rank_le s.1 shuffle m now

/-- A single `Host.Next` into the multiple-choice engine advances the
phase at most once except from `Unstarted` with a zero
`introduce_question`. -/
theorem mc_next_single_step (st : MultipleChoice.State) (wid : Id) (lb : Leaderboard)
    (w : Watchers) (tm : Option TeamManager) (alive : Id → Bool) (now : Nat)
    (r : MultipleChoice.State × Leaderboard × Bool)
    (h : st.receive_message wid (.Host .Next) lb w tm alive now = some r) :
    r.1.state.rank ≤ st.state.rank + 1
    ∨ (st.state = .Unstarted ∧ st.config.introduce_question = 0
        ∧ r.1.state = .Answers) := by
  unfold MultipleChoice.State.receive_message at h
  match hst : st.state with
  | .Unstarted =>
    rw [hst] at h
    injection h with h
    subst h
    by_cases hz : st.config.introduce_question = 0
    · right
      refine ⟨rfl, hz, ?_⟩
      simp [send_question_announcements_state, hst, hz]
    · left
      simp [send_question_announcements_state, hst, hz, SlideState.rank]
  | .Question =>
    rw [hst] at h
    injection h with h
    subst h
    left
    simp [send_answers_announcements_state, hst, SlideState.rank]
  | .Answers =>
    rw [hst] at h
    injection h with h
    subst h
    left
    simp [send_answers_results_state, hst, SlideState.rank]
  | .AnswersResults =>
    rw [hst] at h
    match hd : st.add_scores_deltas w tm alive now with
    | none => rw [hd] at h; exact absurd h (by simp)
    | some deltas =>
      rw [hd] at h
      injection h with h
      subst h
      left
      simp [hst]

/-- A single `Host.Next` into the type-answer engine advances the phase
at most once except from `Unstarted` with a zero `introduce_question`. -/
theorem ta_next_single_step (st : TypeAnswer.State) (wid : Id) (lb : Leaderboard)
    (w : Watchers) (tm : Option TeamManager) (alive : Id → Bool) (now : Nat)
    (r : TypeAnswer.State × Leaderboard × Bool)
    (h : st.receive_message wid (.Host .Next) lb w tm alive now = some r) :
    r.1.state.rank ≤ st.state.rank + 1
    ∨ (st.state = .Unstarted ∧ st.config.introduce_question = 0
        ∧ r.1.state = .Answers) := by
  unfold TypeAnswer.State.receive_message at h
  match hst : st.state with
  | .Unstarted =>
    rw [hst] at h
    injection h with h
    subst h
    by_cases hz : st.config.introduce_question = 0
    · right
      refine ⟨rfl, hz, ?_⟩
      simp [ta_send_question_announcements_state, hst, hz]
    · left
      simp [ta_send_question_announcements_state, hst, hz, SlideState.rank]
  | .Question =>
    rw [hst] at h
    injection h with h
    subst h
    left
    simp [ta_send_accepting_answers_state, hst, SlideState.rank]
  | .Answers =>
    rw [hst] at h
    injection h with h
    subst h
    left
    simp [ta_send_answers_results_state, hst, SlideState.rank]
  | .AnswersResults =>
    rw [hst] at h
    match hd : st.add_scores_deltas w tm alive now with
    | none => rw [hd] at h; exact absurd h (by simp)
    | some deltas =>
      rw [hd] at h
      injection h with h
      subst h
      left
      simp [hst]

/-- A single `Host.Next` into the order engine advances the phase at most
once except from `Unstarted` with a zero `introduce_question`. -/
theorem ord_next_single_step (st : OrderSlide.Slide)
    (shuffle : List String → List String) (wid : Id) (lb : Leaderboard)
    (w : Watchers) (tm : Option TeamManager) (alive : Id → Bool) (now : Nat)
    (r : OrderSlide.Slide × Leaderboard × Bool)
    (h : st.receive_message shuffle wid (.Host .Next) lb w tm alive now = some r) :
    r.1.state.rank ≤ st.state.rank + 1
    ∨ (st.state = .Unstarted ∧ st.introduce_question = 0
        ∧ r.1.state = .Answers) := by
  unfold OrderSlide.Slide.receive_message at h
  match hst : st.state with
  | .Unstarted =>
    rw [hst] at h
    injection h with h
    subst h
    by_cases hz : st.introduce_question = 0
    · right
      refine ⟨rfl, hz, ?_⟩
      simp [ord_send_question_announcements_state, hst, hz]
    · left
      simp [ord_send_question_announcements_state, hst, hz, SlideState.rank]
  | .Question =>
    rw [hst] at h
    injection h with h
    subst h
    left
    simp [ord_send_answers_announcements_state, hst, SlideState.rank]
  | .Answers =>
    rw [hst] at h
    injection h with h
    subst h
    left
    simp [ord_send_answers_results_state, hst, SlideState.rank]
  | .AnswersResults =>
    rw [hst] at h
    match hd : st.add_scores_deltas w tm alive now with
    | none => rw [hd] at h; exact absurd h (by simp)
    | some deltas =>
      rw [hd] at h
      injection h with h
      subst h
      left
      simp [hst]

/-- C6 counterexample: with `introduce_question = 0`, a single `Host.Next`
received in the `Unstarted` phase advances the multiple-choice slide
through `Question` straight into `Answers` — two phase transitions, not
at most one. -/
theorem C6_single_next_two_transitions :
    MultipleChoice.State.receive_message
      { config := { title := "q", media := none, introduce_question := 0,
                    time_limit := 10000, points_awarded := 1000,
                    answers := [{ correct := true, content := .Text "A" }] }
        user_answers := [], answer_start := none, state := .Unstarted }
      1 (.Host .Next) Leaderboard.default (Watchers.with_host_id 0) none
      (fun _ => true) 0 =
      some
        ({ config := { title := "q", media := none, introduce_question := 0,
                       time_limit := 10000, points_awarded := 1000,
                       answers := [{ correct := true, content := .Text "A" }] }
           user_answers := [], answer_start := some 0, state := .Answers },
          Leaderboard.default, false)
    ∧ SlideState.rank .Answers = SlideState.rank .Unstarted + 2 := ⟨rfl, rfl⟩

/-- C6 amended: in each of the three slide engines (multiple-choice,
type-answer, order), `change_state(before, after)` updates the phase iff
the current phase equals `before`; no call of `play`, `receive_message`
or `receive_alarm` — nor any sequence of them — ever lowers the phase in
the order `Unstarted < Question < Answers < AnswersResults`; and a
single `Host.Next` produces at most one phase transition except when
received in `Unstarted` with `introduce_question = 0`, where it advances
two phases, directly to `Answers`. -/
theorem C6_amended_forward_only :
    (∀ (st : MultipleChoice.State) (before after : SlideState),
      ((st.change_state before after).2 = true ↔ st.state = before)
      ∧ (st.change_state before after).1.state =
          (if st.state = before then after else st.state))
    ∧ (∀ (st : MultipleChoice.State) (now : Nat),
        st.state.rank ≤ (st.play now).state.rank)
    ∧ (∀ (st : MultipleChoice.State) (wid : Id) (m : IncomingMessage) (lb : Leaderboard)
        (w : Watchers) (tm : Option TeamManager) (alive : Id → Bool) (now : Nat)
        (r : MultipleChoice.State × Leaderboard × Bool),
        st.receive_message wid m lb w tm alive now = some r →
        st.state.rank ≤ r.1.state.rank)
    ∧ (∀ (st : MultipleChoice.State) (m : AlarmMessage) (now : Nat),
        st.state.rank ≤ (st.receive_alarm m now).state.rank)
    ∧ (∀ (w : Watchers) (tm : Option TeamManager) (alive : Id → Bool)
        (events : List EngineEvent) (s s2 : MultipleChoice.State × Leaderboard),
        engine_run w tm alive s events = some s2 → s.1.state.rank ≤ s2.1.state.rank)
    ∧ (∀ (st : MultipleChoice.State) (wid : Id) (lb : Leaderboard) (w : Watchers)
        (tm : Option TeamManager) (alive : Id → Bool) (now : Nat)
        (r : MultipleChoice.State × Leaderboard × Bool),
        st.receive_message wid (.Host .Next) lb w tm alive now = some r →
        r.1.state.rank ≤ st.state.rank + 1
        ∨ (st.state = .Unstarted ∧ st.config.introduce_question = 0
            ∧ r.1.state = .Answers))
    ∧ ((∀ (st : TypeAnswer.State) (before after : SlideState),
          ((st.change_state before after).2 = true ↔ st.state = before)
          ∧ (st.change_state before after).1.state =
              (if st.state = before then after else st.state))
        ∧ (∀ (st : TypeAnswer.State) (now : Nat),
            st.state.rank ≤ (st.play now).state.rank)
        ∧ (∀ (st : TypeAnswer.State) (wid : Id) (m : IncomingMessage) (lb : Leaderboard)
            (w : Watchers) (tm : Option TeamManager) (alive : Id → Bool) (now : Nat)
            (r : TypeAnswer.State × Leaderboard × Bool),
            st.receive_message wid m lb w tm alive now = some r →
            st.state.rank ≤ r.1.state.rank)
        ∧ (∀ (st : TypeAnswer.State) (m : AlarmMessage) (now : Nat),
            st.state.rank ≤ (st.receive_alarm m now).state.rank)
        ∧ (∀ (w : Watchers) (tm : Option TeamManager) (alive : Id → Bool)
            (events : List EngineEvent) (s s2 : TypeAnswer.State × Leaderboard),
            ta_engine_run w tm alive s events = some s2 →
            s.1.state.rank ≤ s2.1.state.rank)
        ∧ (∀ (st : TypeAnswer.State) (wid : Id) (lb : Leaderboard) (w : Watchers)
            (tm : Option TeamManager) (alive : Id → Bool) (now : Nat)
            (r : TypeAnswer.State × Leaderboard × Bool),
            st.receive_message wid (.Host .Next) lb w tm alive now = some r →
            r.1.state.rank ≤ st.state.rank + 1
            ∨ (st.state = .Unstarted ∧ st.config.introduce_question = 0
                ∧ r.1.state = .Answers)))
    ∧ ((∀ (st : OrderSlide.Slide) (before after : SlideState),
          ((st.change_state before after).2 = true ↔ st.state = before)
          ∧ (st.change_state before after).1.state =
              (if st.state = before then after else st.state))
        ∧ (∀ (st : OrderSlide.Slide) (shuffle : List String → List String) (now : Nat),
            st.state.rank ≤ (st.play shuffle now).state.rank)
        ∧ (∀ (st : OrderSlide.Slide) (shuffle : List String → List String) (wid : Id)
            (m : IncomingMessage) (lb : Leaderboard) (w : Watchers)
            (tm : Option TeamManager) (alive : Id → Bool) (now : Nat)
            (r : OrderSlide.Slide × Leaderboard × Bool),
            st.receive_message shuffle wid m lb w tm alive now = some r →
            st.state.rank ≤ r.1.state.rank)
        ∧ (∀ (st : OrderSlide.Slide) (shuffle : List String → List String)
            (m : AlarmMessage) (now : Nat),
            st.state.rank ≤ (st.receive_alarm shuffle m now).state.rank)
        ∧ (∀ (shuffle : List String → List String) (w : Watchers)
            (tm : Option TeamManager) (alive : Id → Bool)
            (events : List EngineEvent) (s s2 : OrderSlide.Slide × Leaderboard),
            ord_engine_run shuffle w tm alive s events = some s2 →
            s.1.state.rank ≤ s2.1.state.rank)
        ∧ (∀ (st : OrderSlide.Slide) (shuffle : List String → List String) (wid : Id)
            (lb : Leaderboard) (w : Watchers) (tm : Option TeamManager)
            (alive : Id → Bool) (now : Nat)
            (r : OrderSlide.Slide × Leaderboard × Bool),
            st.receive_message shuffle wid (.Host .Next) lb w tm alive now = some r →
            r.1.state.rank ≤ st.state.rank + 1
            ∨ (st.state = .Unstarted ∧ st.introduce_question = 0
                ∧ r.1.state = .Answers))) := by
  refine ⟨fun st before after => ⟨?_, ?_⟩, play_rank_le, receive_message_rank_le,
    receive_alarm_rank_le, engine_run_rank_le, mc_next_single_step,
    ⟨fun st before after => ⟨?_, ?_⟩, ta_play_rank_le, ta_receive_message_rank_le,
      ta_receive_alarm_rank_le, ta_engine_run_rank_le, ta_next_single_step⟩,
    ⟨fun st before after => ⟨?_, ?_⟩, ord_play_rank_le, ord_receive_message_rank_le,
      ord_receive_alarm_rank_le, ord_engine_run_rank_le, ord_next_single_step⟩⟩
  · unfold MultipleChoice.State.change_state
    by_cases h : st.state = before <;> simp [h]
  · unfold MultipleChoice.State.change_state
    by_cases h : st.state = before <;> simp [h]
  · unfold TypeAnswer.State.change_state
    by_cases h : st.state = before <;> simp [h]
  · unfold TypeAnswer.State.change_state
    by_cases h : st.state = before <;> simp [h]
  · unfold OrderSlide.Slide.change_state
    by_cases h : st.state = before <;> simp [h]
  · unfold OrderSlide.Slide.change_state
    by_cases h : st.state = before <;> simp [h]

/-- C6 witness: the monotonicity and single-step facts applied at
concrete slides of all three engines in the `Question` phase receiving
`Host.Next` (one transition each, into `Answers`). -/
theorem C6_amended_forward_only_witness :
    ((MultipleChoice.State.change_state
        { config := { title := "q", media := none, introduce_question := 5000,
                      time_limit := 10000, points_awarded := 1000, answers := [] }
          user_answers := [], answer_start := none, state := .Question }
        .Question .Answers).2 = true ↔
      ({ config := { title := "q", media := none, introduce_question := 5000,
                     time_limit := 10000, points_awarded := 1000, answers := [] }
         user_answers := [], answer_start := none,
         state := .Question } : MultipleChoice.State).state = .Question)
    ∧ SlideState.rank .Question ≤
        SlideState.rank
          (({ config := { title := "q", media := none, introduce_question := 5000,
                          time_limit := 10000, points_awarded := 1000, answers := [] }
              user_answers := [], answer_start := none,
              state := .Question } : MultipleChoice.State).send_answers_announcements 0).state
    ∧ (SlideState.rank
          (({ config := { title := "q", media := none, introduce_question := 5000,
                          time_limit := 10000, points_awarded := 1000, answers := [] }
              user_answers := [], answer_start := some 0,
              state := .Answers } : MultipleChoice.State)).state ≤
        SlideState.rank .Question + 1
        ∨ (SlideState.Question = SlideState.Unstarted ∧ (5000 : Nat) = 0
            ∧ SlideState.Answers = SlideState.Answers))
    ∧ (SlideState.rank
          (({ config := { title := "q", media := none, introduce_question := 5000,
                          time_limit := 10000, points_awarded := 1000, answers := ["a"],
                          case_sensitive := false }
              user_answers := [], answer_start := some 0,
              state := .Answers } : TypeAnswer.State)).state ≤
        SlideState.rank .Question + 1
        ∨ (SlideState.Question = SlideState.Unstarted ∧ (5000 : Nat) = 0
            ∧ SlideState.Answers = SlideState.Answers))
    ∧ (SlideState.rank
          (({ title := "q", media := none, introduce_question := 5000,
              time_limit := 10000, points_awarded := 1000, answers := ["a", "b"],
              axis_from := none, axis_to := none, shuffled_answers := ["a", "b"],
              user_answers := [], answer_start := some 0,
              state := .Answers } : OrderSlide.Slide)).state ≤
        SlideState.rank .Question + 1
        ∨ (SlideState.Question = SlideState.Unstarted ∧ (5000 : Nat) = 0
            ∧ SlideState.Answers = SlideState.Answers)) := by
  have hstep := (C6_amended_forward_only.2.2.1)
    { config := { title := "q", media := none, introduce_question := 5000,
                  time_limit := 10000, points_awarded := 1000, answers := [] }
      user_answers := [], answer_start := none, state := .Question }
    1 (.Host .Next) Leaderboard.default (Watchers.with_host_id 0) none (fun _ => true) 0
    ({ config := { title := "q", media := none, introduce_question := 5000,
                   time_limit := 10000, points_awarded := 1000, answers := [] }
       user_answers := [], answer_start := some 0, state := .Answers },
      Leaderboard.default, false) rfl
  have hone := (C6_amended_forward_only.2.2.2.2.2.1)
    { config := { title := "q", media := none, introduce_question := 5000,
                  time_limit := 10000, points_awarded := 1000, answers := [] }
      user_answers := [], answer_start := none, state := .Question }
    1 Leaderboard.default (Watchers.with_host_id 0) none (fun _ => true) 0
    ({ config := { title := "q", media := none, introduce_question := 5000,
                   time_limit := 10000, points_awarded := 1000, answers := [] }
       user_answers := [], answer_start := some 0, state := .Answers },
      Leaderboard.default, false) rfl
  have htone := (C6_amended_forward_only.2.2.2.2.2.2.1.2.2.2.2.2)
    { config := { title := "q", media := none, introduce_question := 5000,
                  time_limit := 10000, points_awarded := 1000, answers := ["a"],
                  case_sensitive := false }
      user_answers := [], answer_start := none, state := .Question }
    1 Leaderboard.default (Watchers.with_host_id 0) none (fun _ => true) 0
    ({ config := { title := "q", media := none, introduce_question := 5000,
                   time_limit := 10000, points_awarded := 1000, answers := ["a"],
                   case_sensitive := false }
       user_answers := [], answer_start := some 0, state := .Answers },
      Leaderboard.default, false) rfl
  have hoone := (C6_amended_forward_only.2.2.2.2.2.2.2.2.2.2.2.2)
    { title := "q", media := none, introduce_question := 5000,
      time_limit := 10000, points_awarded := 1000, answers := ["a", "b"],
      axis_from := none, axis_to := none, shuffled_answers := [],
      user_answers := [], answer_start := none, state := .Question }
    (fun l => l)
    1 Leaderboard.default (Watchers.with_host_id 0) none (fun _ => true) 0
    ({ title := "q", media := none, introduce_question := 5000,
       time_limit := 10000, points_awarded := 1000, answers := ["a", "b"],
       axis_from := none, axis_to := none, shuffled_answers := ["a", "b"],
       user_answers := [], answer_start := some 0, state := .Answers },
      Leaderboard.default, false) rfl
  exact ⟨((C6_amended_forward_only.1) _ .Question .Answers).1, hstep, hone, htone, hoone⟩

/-! ### C8: the per-player final summary -/

theorem alist_get_mem {α β : Type} [DecidableEq α] :
    ∀ (l : List (α × β)) (k : α) (v : β), alist_get l k = some v → (k, v) ∈ l := by
  intro l
  induction l with
  | nil => intro k v h; simp at h
  | cons hd tl ih =>
    intro k v h
    obtain ⟨a, b⟩ := hd
    by_cases hak : a = k
    · subst hak
      simp only [alist_get_cons, if_pos rfl] at h
      injection h with h
      subst h
      exact List.mem_cons_self _ _
    · simp only [alist_get_cons, if_neg hak] at h
      exact List.mem_cons_of_mem _ (ih k v h)

theorem resize_to_length (n : Nat) (v : List Nat) : (resize_to n v).length = n := by
  simp only [resize_to, List.length_append, List.length_take, List.length_replicate]
  omega

theorem resize_to_of_length_eq (n : Nat) (v : List Nat) (h : v.length = n) :
    resize_to n v = v := by
  simp [resize_to, h, List.take_of_length_le (le_of_eq h)]

theorem resize_all_mem_length (n : Nat) (agg : List (Id × List Nat)) :
    ∀ e ∈ resize_all n agg, e.2.length = n := by
  intro e he
  simp only [resize_all, List.mem_map] at he
  obtain ⟨x, _, hx⟩ := he
  rw [← hx]
  exact resize_to_length n x.2

theorem resize_all_lookup (n : Nat) (agg : List (Id × List Nat)) (id : Id) :
    alist_get (resize_all n agg) id = (alist_get agg id).map (resize_to n) := by
  induction agg with
  | nil => rfl
  | cons hd tl ih =>
    obtain ⟨a, v⟩ := hd
    by_cases hai : a = id
    · subst hai
      simp [resize_all, alist_get]
    · simp only [resize_all, List.map_cons, alist_get_cons, if_neg hai]
      exact ih

theorem push_slide_lookup_absent (id : Id) :
    ∀ (sm : List (Id × Nat)) (agg : List (Id × List Nat)), alist_get sm id = none →
      alist_get (push_slide agg sm) id = alist_get agg id := by
  intro sm
  induction sm with
  | nil => intro agg _; rfl
  | cons hd tl ih =>
    intro agg h
    obtain ⟨a, p⟩ := hd
    simp only [alist_get_cons] at h
    by_cases hai : a = id
    · simp [hai] at h
    · simp only [push_slide]
      rw [ih _ (by simpa [hai] using h), alist_get_put_ne _ _ _ _ hai]

theorem push_slide_lookup_present (id : Id) (p : Nat) :
    ∀ (sm : List (Id × Nat)) (agg : List (Id × List Nat)),
      (sm.map Prod.fst).Nodup → alist_get sm id = some p →
      alist_get (push_slide agg sm) id = some ((alist_get agg id).getD [] ++ [p]) := by
  intro sm
  induction sm with
  | nil => intro agg _ h; simp at h
  | cons hd tl ih =>
    intro agg hnd h
    obtain ⟨a, q⟩ := hd
    simp only [List.map_cons, List.nodup_cons] at hnd
    simp only [alist_get_cons] at h
    by_cases hai : a = id
    · subst hai
      simp only [if_pos rfl] at h
      injection h with h
      subst h
      simp only [push_slide]
      have habs : alist_get tl a = none := by
        cases hh : alist_get tl a with
        | none => rfl
        | some w =>
          exact absurd (List.mem_map.mpr ⟨(a, w), alist_get_mem tl a w hh, rfl⟩) hnd.1
      rw [push_slide_lookup_absent a tl _ habs, alist_get_put_self]
    · simp only [if_neg hai] at h
      simp only [push_slide]
      rw [ih _ hnd.2 h, alist_get_put_ne _ _ _ _ hai]

theorem alist_put_keys_mem {α β : Type} [DecidableEq α] (k : α) (v : β) (x : α) :
    ∀ l : List (α × β),
      x ∈ (alist_put l k v).map Prod.fst → x ∈ l.map Prod.fst ∨ x = k := by
  intro l
  induction l with
  | nil =>
    intro h
    simp [alist_put] at h
    right
    exact h
  | cons hd tl ih =>
    intro h
    obtain ⟨a, b⟩ := hd
    by_cases hak : a = k
    · simp only [alist_put, if_pos hak, List.map_cons, List.mem_cons] at h ⊢
      rcases h with h | h
      · right; exact h
      · left; right; exact h
    · simp only [alist_put, if_neg hak, List.map_cons, List.mem_cons] at h ⊢
      rcases h with h | h
      · left; left; exact h
      · rcases ih h with h2 | h2
        · left; right; exact h2
        · right; exact h2

theorem alist_put_keys_nodup {α β : Type} [DecidableEq α] (k : α) (v : β) :
    ∀ l : List (α × β), (l.map Prod.fst).Nodup →
      ((alist_put l k v).map Prod.fst).Nodup := by
  intro l
  induction l with
  | nil => intro _; simp [alist_put]
  | cons hd tl ih =>
    intro h
    obtain ⟨a, b⟩ := hd
    simp only [List.map_cons, List.nodup_cons] at h
    by_cases hak : a = k
    · subst hak
      have hput : alist_put ((a, b) :: tl) a v = (a, v) :: tl := by simp [alist_put]
      rw [hput]
      simp only [List.map_cons, List.nodup_cons]
      exact h
    · simp only [alist_put, if_neg hak, List.map_cons, List.nodup_cons]
      refine ⟨fun hmem => ?_, ih h.2⟩
      rcases alist_put_keys_mem k v a tl hmem with h2 | h2
      · exact h.1 h2
      · exact hak h2

theorem slide_score_mapping_keys_nodup (sr : Bool) (s : List (Id × Nat)) :
    ((slide_score_mapping sr s).map Prod.fst).Nodup := by
  suffices hgen : ∀ (t : List (Id × Nat)) (acc : List (Id × Nat)),
      (acc.map Prod.fst).Nodup →
      ((t.foldl (fun m e => alist_put m e.1 (map_score sr e.2)) acc).map Prod.fst).Nodup by
    exact hgen s [] (by simp)
  intro t
  induction t with
  | nil => intro acc h; exact h
  | cons hd tl ih =>
    intro acc h
    exact ih _ (alist_put_keys_nodup hd.1 (map_score sr hd.2) acc h)

theorem ssm_lookup (sr : Bool) :
    ∀ (s : List (Id × Nat)) (acc : List (Id × Nat)) (id : Id), (s.map Prod.fst).Nodup →
      alist_get (s.foldl (fun m e => alist_put m e.1 (map_score sr e.2)) acc) id =
        (match alist_get s id with
          | some v => some (map_score sr v)
          | none => alist_get acc id) := by
  intro s
  induction s with
  | nil => intro acc id _; rfl
  | cons hd rest ih =>
    intro acc id hnd
    obtain ⟨k, v⟩ := hd
    simp only [List.map_cons, List.nodup_cons] at hnd
    simp only [List.foldl_cons]
    rw [ih _ id hnd.2]
    match hr : alist_get rest id with
    | some w =>
      have hk : k ≠ id := by
        intro hh
        subst hh
        exact hnd.1 (List.mem_map.mpr ⟨(k, w), alist_get_mem rest k w hr, rfl⟩)
      simp [alist_get_cons, hk, hr]
    | none =>
      by_cases hk : k = id
      · subst hk
        simp [alist_get_cons, alist_get_put_self, hr]
      · simp [alist_get_cons, hk, hr, alist_get_put_ne _ _ _ _ hk]

theorem slide_score_mapping_lookup (sr : Bool) (s : List (Id × Nat)) (id : Id)
    (hnd : (s.map Prod.fst).Nodup) :
    alist_get (slide_score_mapping sr s) id = (alist_get s id).map (map_score sr) := by
  unfold slide_score_mapping
  rw [ssm_lookup sr s [] id hnd]
  cases alist_get s id <;> rfl

/-- Shorthand for the fold step of `compute_final_summary`. -/
def summary_step (sr : Bool) (acc : Nat × List (Id × List Nat)) (slide : List (Id × Nat)) :
    Nat × List (Id × List Nat) :=
  (acc.1 + 1, resize_all (acc.1 + 1) (push_slide acc.2 (slide_score_mapping sr slide)))

theorem final_summary_mapping_eq (sr : Bool) (ps : List (List (Id × Nat))) :
    final_summary_mapping sr ps = (ps.foldl (summary_step sr) (0, [])).2 := rfl

theorem fold_count (sr : Bool) :
    ∀ (ps : List (List (Id × Nat))) (c : Nat) (agg : List (Id × List Nat)),
      (ps.foldl (summary_step sr) (c, agg)).1 = c + ps.length := by
  intro ps
  induction ps with
  | nil => intro c agg; simp
  | cons s rest ih =>
    intro c agg
    simp only [List.foldl_cons, summary_step, ih, List.length_cons]
    omega

theorem fold_lengths (sr : Bool) :
    ∀ (ps : List (List (Id × Nat))) (c : Nat) (agg : List (Id × List Nat)),
      (∀ e ∈ agg, e.2.length = c) →
      ∀ e ∈ (ps.foldl (summary_step sr) (c, agg)).2, e.2.length = c + ps.length := by
  intro ps
  induction ps with
  | nil => intro c agg h; simpa using h
  | cons s rest ih =>
    intro c agg _
    intro e he
    have := ih (c + 1)
      (resize_all (c + 1) (push_slide agg (slide_score_mapping sr s)))
      (resize_all_mem_length _ _) e he
    simpa [Nat.add_assoc, Nat.add_comm 1 rest.length] using this

theorem fold_absent (sr : Bool) :
    ∀ (ps : List (List (Id × Nat))) (c : Nat) (agg : List (Id × List Nat)) (id : Id),
      alist_get agg id = none →
      (∀ s ∈ ps, alist_get (slide_score_mapping sr s) id = none) →
      alist_get (ps.foldl (summary_step sr) (c, agg)).2 id = none := by
  intro ps
  induction ps with
  | nil => intro c agg id h _; exact h
  | cons s rest ih =>
    intro c agg id h hall
    simp only [List.foldl_cons, summary_step]
    refine ih (c + 1) _ id ?_ (fun s' hs' => hall s' (List.mem_cons_of_mem _ hs'))
    rw [resize_all_lookup,
      push_slide_lookup_absent id _ _ (hall s (List.mem_cons_self _ _)), h]
    rfl

theorem fold_present (sr : Bool) :
    ∀ (ps : List (List (Id × Nat))) (c : Nat) (agg : List (Id × List Nat)) (id : Id)
      (v : List Nat),
      alist_get agg id = some v → v.length = c →
      (∀ s ∈ ps, (alist_get (slide_score_mapping sr s) id).isSome) →
      alist_get (ps.foldl (summary_step sr) (c, agg)).2 id =
        some (v ++ ps.map (fun s => (alist_get (slide_score_mapping sr s) id).getD 0)) := by
  intro ps
  induction ps with
  | nil => intro c agg id v h _ _; simpa using h
  | cons s rest ih =>
    intro c agg id v h hlen hall
    obtain ⟨p, hp⟩ := Option.isSome_iff_exists.mp (hall s (List.mem_cons_self _ _))
    simp only [List.foldl_cons, summary_step]
    have hpush : alist_get (push_slide agg (slide_score_mapping sr s)) id =
        some (v ++ [p]) := by
      rw [push_slide_lookup_present id p _ _ (slide_score_mapping_keys_nodup sr s) hp, h]
      rfl
    have hres : alist_get (resize_all (c + 1)
        (push_slide agg (slide_score_mapping sr s))) id = some (v ++ [p]) := by
      rw [resize_all_lookup, hpush]
      simp only [Option.map_some']
      rw [resize_to_of_length_eq _ _ (by simp [hlen])]
    rw [ih (c + 1) _ id (v ++ [p]) hres (by simp [hlen])
      (fun s' hs' => hall s' (List.mem_cons_of_mem _ hs'))]
    simp [hp, List.append_assoc]

theorem fold_creation (sr : Bool) (ps : List (List (Id × Nat))) (agg : List (Id × List Nat))
    (id : Id) (hne : ps ≠ []) (h : alist_get agg id = none)
    (hall : ∀ s ∈ ps, (alist_get (slide_score_mapping sr s) id).isSome) :
    alist_get (ps.foldl (summary_step sr) (0, agg)).2 id =
      some (ps.map (fun s => (alist_get (slide_score_mapping sr s) id).getD 0)) := by
  match ps with
  | [] => exact absurd rfl hne
  | s :: rest =>
    obtain ⟨p, hp⟩ := Option.isSome_iff_exists.mp (hall s (List.mem_cons_self _ _))
    simp only [List.foldl_cons, summary_step]
    have hpush : alist_get (push_slide agg (slide_score_mapping sr s)) id = some [p] := by
      rw [push_slide_lookup_present id p _ _ (slide_score_mapping_keys_nodup sr s) hp, h]
      rfl
    have hres : alist_get (resize_all (0 + 1)
        (push_slide agg (slide_score_mapping sr s))) id = some [p] := by
      rw [resize_all_lookup, hpush]
      simp only [Option.map_some']
      rw [resize_to_of_length_eq _ _ (by simp)]
    rw [fold_present sr rest (0 + 1) _ id [p] hres (by simp)
      (fun s' hs' => hall s' (List.mem_cons_of_mem _ hs'))]
    simp [hp]

/-- C8 counterexample: a two-slide history where player 2 appears only on
the second slide, earning 7 there.  The summary vector is `[7, 0]` — the
points of slide 1 land at entry 0 — not the `[0, 7]` that "entry i is
the points earned on slide i" demands. -/
theorem C8_late_joiner_summary_misaligned :
    Leaderboard.player_summary
      { points_earned := [[(1, 5)], [(1, 3), (2, 7)]]
        previous_scores_descending := []
        scores_descending := []
        score_and_position := [] } 2 true = [7, 0]
    ∧ ([7, 0] : List Nat) ≠ [0, 7] := ⟨rfl, by decide⟩

/-- C8 amended: `player_summary(id, show_real)` always returns a vector of
length `N = slides played`; a player recorded on no slide gets the
all-zero vector; and when the player appears in every slide's delta
vector (as engine-produced deltas ensure for players present from the
start), entry i is exactly the player's points on slide i, capped by
`min(points, 1)` when `show_real` is false.  A player first recorded on
a later slide instead gets their recorded points compacted to the front
of the vector (see the counterexample). -/
theorem C8_player_summary (lb : Leaderboard) (id : Id) (show_real_score : Bool) :
    (lb.player_summary id show_real_score).length = lb.points_earned.length
    ∧ ((∀ s ∈ lb.points_earned, alist_get (slide_score_mapping show_real_score s) id = none) →
        lb.player_summary id show_real_score = List.replicate lb.points_earned.length 0)
    ∧ ((∀ s ∈ lb.points_earned, (s.map Prod.fst).Nodup) →
        (∀ s ∈ lb.points_earned, (alist_get s id).isSome) →
        lb.player_summary id show_real_score =
          lb.points_earned.map (fun s => map_score show_real_score ((alist_get s id).getD 0))) := by
  refine ⟨?_, ?_, ?_⟩
  · unfold Leaderboard.player_summary
    match hl : alist_get (final_summary_mapping show_real_score lb.points_earned) id with
    | some v =>
      have hmem := alist_get_mem _ _ _ hl
      rw [final_summary_mapping_eq] at hmem
      have := fold_lengths show_real_score lb.points_earned 0 [] (by simp) _ hmem
      simpa using this
    | none => simp
  · intro hall
    unfold Leaderboard.player_summary
    rw [final_summary_mapping_eq, fold_absent show_real_score _ 0 [] id rfl hall]
  · intro hnd hall
    unfold Leaderboard.player_summary
    match hpe : lb.points_earned with
    | [] => simp [final_summary_mapping_eq, alist_get]
    | s :: rest =>
      have hall' : ∀ s' ∈ s :: rest,
          (alist_get (slide_score_mapping show_real_score s') id).isSome := by
        intro s' hs'
        rw [slide_score_mapping_lookup show_real_score s' id (hnd s' (hpe ▸ hs'))]
        obtain ⟨w, hw⟩ := Option.isSome_iff_exists.mp (hall s' (hpe ▸ hs'))
        simp [hw]
      rw [final_summary_mapping_eq,
        fold_creation show_real_score (s :: rest) [] id (by simp) rfl hall']
      refine List.map_congr_left ?_
      intro s' hs'
      rw [slide_score_mapping_lookup show_real_score s' id (hnd s' (hpe ▸ hs'))]
      obtain ⟨w, hw⟩ := Option.isSome_iff_exists.mp (hall s' (hpe ▸ hs'))
      simp [hw]

/-- C8 witness: the summary facts applied at a concrete two-slide history
in which player 1 appears on both slides. -/
theorem C8_player_summary_witness :
    (Leaderboard.player_summary
      { points_earned := [[(1, 5)], [(1, 3), (2, 7)]]
        previous_scores_descending := []
        scores_descending := []
        score_and_position := [] } 1 false).length = 2
    ∧ Leaderboard.player_summary
      { points_earned := [[(1, 5)], [(1, 3), (2, 7)]]
        previous_scores_descending := []
        scores_descending := []
        score_and_position := [] } 1 false =
        [map_score false 5, map_score false 3] := by
  have h := C8_player_summary
    { points_earned := [[(1, 5)], [(1, 3), (2, 7)]]
      previous_scores_descending := []
      scores_descending := []
      score_and_position := [] } 1 false
  refine ⟨h.1, ?_⟩
  have h3 := h.2.2 (by intro s hs; fin_cases hs <;> decide)
    (by intro s hs; fin_cases hs <;> decide)
  rw [h3]
  rfl

/-! ### C9: the kind-bucketed reverse index of the watcher registry -/

/-- The registry invariant: an id is in some kind bucket exactly when it
is in the primary mapping, and every id in a kind bucket is mapped to a
value of that kind. -/
def Watchers.wf (w : Watchers) : Prop :=
  (∀ id : Id, (∃ k, id ∈ w.bucket k) ↔ (alist_get w.mapping id).isSome)
  ∧ (∀ (k : ValueKind) (id : Id), id ∈ w.bucket k →
      ∃ v, alist_get w.mapping id = some v ∧ v.kind = k)

theorem mem_slist_insert {α : Type} [DecidableEq α] (l : List α) (x j : α) :
    j ∈ (slist_insert l x).1 ↔ j ∈ l ∨ j = x := by
  unfold slist_insert
  by_cases hx : x ∈ l
  · simp only [if_pos hx]
    constructor
    · exact fun h => Or.inl h
    · rintro (h | rfl)
      · exact h
      · exact hx
  · simp only [if_neg hx, List.mem_cons]
    constructor
    · rintro (rfl | h)
      · right; rfl
      · left; exact h
    · rintro (h | rfl)
      · right; exact h
      · left; rfl

theorem mem_slist_remove {α : Type} [DecidableEq α] (l : List α) (x j : α) :
    j ∈ slist_remove l x ↔ j ∈ l ∧ j ≠ x := by
  simp [slist_remove, List.mem_filter]

theorem set_mapping_bucket (w : Watchers) (m : List (Id × Value)) (k : ValueKind) :
    (w.set_mapping m).bucket k = w.bucket k := by
  obtain ⟨a, b, c, d⟩ := w
  cases k <;> rfl

theorem set_mapping_mapping (w : Watchers) (m : List (Id × Value)) :
    (w.set_mapping m).mapping = m := by
  obtain ⟨a, b, c, d⟩ := w
  rfl

theorem bucket_put_bucket (w : Watchers) (k : ValueKind) (id : Id) (k' : ValueKind) :
    (w.bucket_put k id).bucket k' =
      if k' = k then (slist_insert (w.bucket k) id).1 else w.bucket k' := by
  cases k <;> cases k' <;> simp [Watchers.bucket_put, Watchers.bucket]

theorem bucket_del_bucket (w : Watchers) (k : ValueKind) (id : Id) (k' : ValueKind) :
    (w.bucket_del k id).bucket k' =
      if k' = k then slist_remove (w.bucket k) id else w.bucket k' := by
  cases k <;> cases k' <;> simp [Watchers.bucket_del, Watchers.bucket]

theorem bucket_put_mapping (w : Watchers) (k : ValueKind) (id : Id) :
    (w.bucket_put k id).mapping = w.mapping := by
  cases k <;> rfl

theorem bucket_del_mapping (w : Watchers) (k : ValueKind) (id : Id) :
    (w.bucket_del k id).mapping = w.mapping := by
  cases k <;> rfl

theorem with_host_id_wf (host_id : Id) : (Watchers.with_host_id host_id).wf := by
  constructor
  · intro id
    constructor
    · rintro ⟨k, hk⟩
      cases k <;> simp [Watchers.with_host_id, Watchers.bucket] at hk <;>
        simp [Watchers.with_host_id, hk, alist_get]
    · intro h
      simp only [Watchers.with_host_id, alist_get_cons] at h
      by_cases hh : host_id = id
      · exact ⟨.Host, by simp [Watchers.bucket, Watchers.with_host_id, hh]⟩
      · simp [hh] at h
  · intro k id hk
    cases k <;> simp [Watchers.with_host_id, Watchers.bucket] at hk
    refine ⟨Value.Host, ?_, rfl⟩
    simp [Watchers.with_host_id, hk, alist_get]

theorem add_watcher_fresh_wf (w : Watchers) (max_players : Nat) (id : Id) (v : Value)
    (w' : Watchers) (hwf : w.wf) (hfresh : alist_get w.mapping id = none)
    (hadd : w.add_watcher max_players id v = some w') : w'.wf := by
  unfold Watchers.add_watcher at hadd
  by_cases hcap : w.mapping.length ≥ max_players
  · rw [if_pos hcap] at hadd
    exact absurd hadd (by simp)
  · rw [if_neg hcap] at hadd
    injection hadd with hadd
    subst hadd
    have hid_nobucket : ∀ k, id ∉ w.bucket k := by
      intro k hk
      have := (hwf.1 id).mp ⟨k, hk⟩
      rw [hfresh] at this
      exact absurd this (by simp)
    have hput : ∀ k, ((w.set_mapping (alist_put w.mapping id v)).bucket_put
        v.kind id).bucket k =
        if k = v.kind then (slist_insert (w.bucket v.kind) id).1
        else w.bucket k := by
      intro k
      rw [bucket_put_bucket]
      by_cases hkv : k = v.kind
      · rw [if_pos hkv, if_pos hkv, set_mapping_bucket]
      · rw [if_neg hkv, if_neg hkv, set_mapping_bucket]
    have hmap : ((w.set_mapping (alist_put w.mapping id v)).bucket_put
        v.kind id).mapping = alist_put w.mapping id v := by
      rw [bucket_put_mapping, set_mapping_mapping]
    constructor
    · intro j
      rw [hmap]
      by_cases hj : j = id
      · subst hj
        constructor
        · intro _
          simp [alist_get_put_self]
        · intro _
          refine ⟨v.kind, ?_⟩
          rw [hput, if_pos rfl, mem_slist_insert]
          right; rfl
      · rw [alist_get_put_ne _ _ _ _ (fun hh => hj hh.symm)]
        constructor
        · rintro ⟨k, hk⟩
          rw [hput] at hk
          by_cases hkv : k = v.kind
          · rw [if_pos hkv, mem_slist_insert] at hk
            rcases hk with hk | hk
            · exact (hwf.1 j).mp ⟨v.kind, hk⟩
            · exact absurd hk hj
          · rw [if_neg hkv] at hk
            exact (hwf.1 j).mp ⟨k, hk⟩
        · intro hj'
          obtain ⟨k, hk⟩ := (hwf.1 j).mpr hj'
          refine ⟨k, ?_⟩
          rw [hput]
          by_cases hkv : k = v.kind
          · rw [if_pos hkv, mem_slist_insert]
            left
            exact hkv ▸ hk
          · rw [if_neg hkv]
            exact hk
    · intro k j hk
      rw [hput] at hk
      rw [hmap]
      by_cases hj : j = id
      · subst hj
        have hkk : k = v.kind := by
          by_cases hkv : k = v.kind
          · exact hkv
          · rw [if_neg hkv] at hk
            exact absurd hk (hid_nobucket k)
        subst hkk
        exact ⟨v, alist_get_put_self _ _ _, rfl⟩
      · have hk' : j ∈ w.bucket k := by
          by_cases hkv : k = v.kind
          · rw [if_pos hkv, mem_slist_insert] at hk
            rcases hk with hk | hk
            · exact hkv ▸ hk
            · exact absurd hk hj
          · rw [if_neg hkv] at hk
            exact hk
        obtain ⟨v', hv', hvk⟩ := hwf.2 k j hk'
        exact ⟨v', by rw [alist_get_put_ne _ _ _ _ (fun hh => hj hh.symm)]; exact hv', hvk⟩

theorem update_watcher_value_wf (w : Watchers) (id : Id) (v : Value) (hwf : w.wf) :
    (w.update_watcher_value id v).wf := by
  unfold Watchers.update_watcher_value
  match hold : alist_get w.mapping id with
  | none => exact hwf
  | some old =>
    dsimp only []
    by_cases hkind : old.kind ≠ v.kind
    · rw [if_pos hkind]
      have hid_only : ∀ k, id ∈ w.bucket k → k = old.kind := by
        intro k hk
        obtain ⟨v', hv', hvk⟩ := hwf.2 k id hk
        rw [hold] at hv'
        injection hv' with hv'
        rw [← hvk, ← hv']
      have hbkt : ∀ k, (((w.bucket_del old.kind id).bucket_put v.kind id).set_mapping
          (alist_put ((w.bucket_del old.kind id).bucket_put v.kind id).mapping id v)).bucket
            k =
          if k = v.kind then
            (slist_insert (if v.kind = old.kind
              then slist_remove (w.bucket old.kind) id
              else w.bucket v.kind) id).1
          else if k = old.kind
            then slist_remove (w.bucket old.kind) id
            else w.bucket k := by
        intro k
        rw [set_mapping_bucket, bucket_put_bucket]
        simp only [bucket_del_bucket]
      have hmap : (((w.bucket_del old.kind id).bucket_put v.kind id).set_mapping
          (alist_put ((w.bucket_del old.kind id).bucket_put v.kind id).mapping id v)).mapping =
          alist_put w.mapping id v := by
        rw [set_mapping_mapping, bucket_put_mapping, bucket_del_mapping]
      constructor
      · intro j
        rw [hmap]
        by_cases hj : j = id
        · subst hj
          constructor
          · intro _; simp [alist_get_put_self]
          · intro _
            refine ⟨v.kind, ?_⟩
            rw [hbkt, if_pos rfl, mem_slist_insert]
            right; rfl
        · rw [alist_get_put_ne _ _ _ _ (fun hh => hj hh.symm)]
          constructor
          · rintro ⟨k, hk⟩
            rw [hbkt] at hk
            by_cases hkv : k = v.kind
            · rw [if_pos hkv, mem_slist_insert] at hk
              rcases hk with hk | hk
              · by_cases hko : v.kind = old.kind
                · rw [if_pos hko, mem_slist_remove] at hk
                  exact (hwf.1 j).mp ⟨old.kind, hk.1⟩
                · rw [if_neg hko] at hk
                  exact (hwf.1 j).mp ⟨v.kind, hk⟩
              · exact absurd hk hj
            · rw [if_neg hkv] at hk
              by_cases hko : k = old.kind
              · rw [if_pos hko, mem_slist_remove] at hk
                exact (hwf.1 j).mp ⟨old.kind, hk.1⟩
              · rw [if_neg hko] at hk
                exact (hwf.1 j).mp ⟨k, hk⟩
          · intro hj'
            obtain ⟨k, hk⟩ := (hwf.1 j).mpr hj'
            refine ⟨k, ?_⟩
            rw [hbkt]
            by_cases hkv : k = v.kind
            · rw [if_pos hkv, mem_slist_insert]
              left
              by_cases hko : v.kind = old.kind
              · rw [if_pos hko, mem_slist_remove]
                refine ⟨?_, hj⟩
                have hkk : k = old.kind := hkv.trans hko
                exact hkk ▸ hk
              · rw [if_neg hko]
                exact hkv ▸ hk
            · rw [if_neg hkv]
              by_cases hko : k = old.kind
              · rw [if_pos hko, mem_slist_remove]
                exact ⟨hko ▸ hk, hj⟩
              · rw [if_neg hko]
                exact hk
      · intro k j hk
        rw [hmap]
        rw [hbkt] at hk
        by_cases hj : j = id
        · subst hj
          have hkk : k = v.kind := by
            by_cases hkv : k = v.kind
            · exact hkv
            · rw [if_neg hkv] at hk
              by_cases hko : k = old.kind
              · rw [if_pos hko, mem_slist_remove] at hk
                exact absurd rfl hk.2
              · rw [if_neg hko] at hk
                exact absurd (hid_only k hk) hko
          subst hkk
          exact ⟨v, alist_get_put_self _ _ _, rfl⟩
        · have hk' : j ∈ w.bucket k := by
            by_cases hkv : k = v.kind
            · rw [if_pos hkv, mem_slist_insert] at hk
              rcases hk with hk | hk
              · by_cases hko : v.kind = old.kind
                · rw [if_pos hko, mem_slist_remove] at hk
                  have hkk : k = old.kind := hkv.trans hko
                  exact hkk ▸ hk.1
                · rw [if_neg hko] at hk
                  exact hkv ▸ hk
              · exact absurd hk hj
            · rw [if_neg hkv] at hk
              by_cases hko : k = old.kind
              · rw [if_pos hko, mem_slist_remove] at hk
                exact hko ▸ hk.1
              · rw [if_neg hko] at hk
                exact hk
          obtain ⟨v', hv', hvk⟩ := hwf.2 k j hk'
          exact ⟨v', by rw [alist_get_put_ne _ _ _ _ (fun hh => hj hh.symm)]; exact hv', hvk⟩
    · rw [if_neg hkind]
      push_neg at hkind
      constructor
      · intro j
        rw [set_mapping_mapping]
        by_cases hj : j = id
        · subst hj
          constructor
          · intro _; simp [alist_get_put_self]
          · intro _
            exact (hwf.1 j).mpr (by simp [hold])
        · rw [alist_get_put_ne _ _ _ _ (fun hh => hj hh.symm)]
          have : ∀ k, (w.set_mapping (alist_put w.mapping id v)).bucket k = w.bucket k :=
            fun k => set_mapping_bucket w _ k
          constructor
          · rintro ⟨k, hk⟩
            rw [this k] at hk
            exact (hwf.1 j).mp ⟨k, hk⟩
          · intro hj'
            obtain ⟨k, hk⟩ := (hwf.1 j).mpr hj'
            exact ⟨k, by rw [this k]; exact hk⟩
      · intro k j hk
        rw [set_mapping_mapping]
        rw [set_mapping_bucket] at hk
        by_cases hj : j = id
        · subst hj
          obtain ⟨v', hv', hvk⟩ := hwf.2 k j hk
          rw [hold] at hv'
          injection hv' with hv'
          refine ⟨v, alist_get_put_self _ _ _, ?_⟩
          rw [← hkind, ← hvk, hv']
        · obtain ⟨v', hv', hvk⟩ := hwf.2 k j hk
          exact ⟨v', by rw [alist_get_put_ne _ _ _ _ (fun hh => hj hh.symm)]; exact hv', hvk⟩

/-- C9 counterexample: calling `add_watcher` twice with the same id and
different kinds — first `Unassigned`, then `Host` — leaves the id in the
`Unassigned` kind-bucket while the primary mapping holds it with kind
`Host`: the claimed invariant fails for unrestricted `add_watcher`
sequences. -/
theorem C9_duplicate_add_breaks_kind_bucket :
    ((Watchers.with_host_id 0).add_watcher 10 1 .Unassigned).bind
        (fun w1 => w1.add_watcher 10 1 .Host) =
      some { mapping := [(0, Value.Host), (1, Value.Host)]
             unassigned_bucket := [1]
             host_bucket := [1, 0]
             player_bucket := [] }
    ∧ (1 : Id) ∈ ([1] : List Id)
    ∧ Value.Host.kind ≠ ValueKind.Unassigned := ⟨rfl, by decide, by decide⟩

/-- C9 amended: the two-sided invariant — bucket ids coincide with mapped
ids, and bucket membership matches the mapped kind — holds for
`with_host_id` and is preserved by `update_watcher_value` and by every
`add_watcher` call whose id is not yet present; a duplicate `add_watcher`
with a different kind violates it (see the counterexample). -/
theorem C9_reverse_index_invariant :
    (∀ host_id : Id, (Watchers.with_host_id host_id).wf)
    ∧ (∀ (w : Watchers) (max_players : Nat) (id : Id) (v : Value) (w' : Watchers),
        w.wf → alist_get w.mapping id = none →
        w.add_watcher max_players id v = some w' → w'.wf)
    ∧ (∀ (w : Watchers) (id : Id) (v : Value), w.wf → (w.update_watcher_value id v).wf) :=
  ⟨with_host_id_wf, add_watcher_fresh_wf, update_watcher_value_wf⟩

/-- C9 witness: the invariant facts applied at the host-seeded registry
and one fresh addition and one value update. -/
theorem C9_reverse_index_invariant_witness :
    (Watchers.with_host_id 0).wf
    ∧ (((Watchers.with_host_id 0).add_watcher 10 1 .Unassigned).getD
        (Watchers.with_host_id 0)).wf
    ∧ ((Watchers.with_host_id 0).update_watcher_value 0
        (.Player (.Individual "alice"))).wf := by
  refine ⟨C9_reverse_index_invariant.1 0, ?_, ?_⟩
  · exact C9_reverse_index_invariant.2.1 (Watchers.with_host_id 0) 10 1 .Unassigned _
      (C9_reverse_index_invariant.1 0) rfl rfl
  · exact C9_reverse_index_invariant.2.2 (Watchers.with_host_id 0) 0
      (.Player (.Individual "alice")) (C9_reverse_index_invariant.1 0)

/-! ### C5: team formation and late joining -/

/-- Total number of occurrences of a player across all team member
lists. -/
def member_count (tm : TeamManager) (p : Id) : Nat :=
  (tm.team_to_players.map (fun e => e.2.count p)).sum

theorem insert_sorted_perm {α : Type} (le : α → α → Bool) (x : α) :
    ∀ l : List α, (insert_sorted le x l).Perm (x :: l) := by
  intro l
  induction l with
  | nil => exact List.Perm.refl _
  | cons y ys ih =>
    unfold insert_sorted
    by_cases h : sort_lt le y x = true
    · rw [if_pos h]
      exact (ih.cons y).trans (List.Perm.swap x y ys)
    · rw [if_neg h]

theorem sort_by_stable_perm {α : Type} (le : α → α → Bool) :
    ∀ l : List α, (sort_by_stable le l).Perm l := by
  intro l
  induction l with
  | nil => exact List.Perm.refl _
  | cons x xs ih =>
    exact (insert_sorted_perm le x _).trans (ih.cons x)

theorem chunk_by_anchor_flatten : ∀ l : List (Id × Id), (chunk_by_anchor l).flatten = l := by
  intro l
  induction l with
  | nil => rfl
  | cons a rest ih =>
    unfold chunk_by_anchor
    match hch : chunk_by_anchor rest with
    | [] =>
      rw [hch] at ih
      dsimp only []
      simp only [List.flatten_nil] at ih
      simp [← ih]
    | [] :: gs =>
      rw [hch] at ih
      dsimp only []
      simp only [List.flatten_cons, List.nil_append] at ih
      simp [ih]
    | (b :: g) :: gs =>
      rw [hch] at ih
      dsimp only []
      by_cases hab : a.1 = b.1
      · rw [if_pos hab]
        simp only [List.flatten_cons] at ih ⊢
        simp [ih]
      · rw [if_neg hab]
        simp only [List.flatten_cons] at ih ⊢
        simp [ih]

theorem chunk_by_anchor_ne_nil : ∀ (l : List (Id × Id)) (g : List (Id × Id)),
    g ∈ chunk_by_anchor l → g ≠ [] := by
  intro l
  induction l with
  | nil => intro g hg; simp [chunk_by_anchor] at hg
  | cons a rest ih =>
    intro g hg
    unfold chunk_by_anchor at hg
    match hch : chunk_by_anchor rest with
    | [] =>
      rw [hch] at hg
      dsimp only [] at hg
      simp only [List.mem_singleton] at hg
      simp [hg]
    | [] :: gs =>
      rw [hch] at hg
      dsimp only [] at hg
      rcases List.mem_cons.mp hg with rfl | hg'
      · simp
      · exact ih _ (hch ▸ List.mem_cons_of_mem _ hg')
    | (b :: g') :: gs =>
      rw [hch] at hg
      dsimp only [] at hg
      by_cases hab : a.1 = b.1
      · rw [if_pos hab] at hg
        rcases List.mem_cons.mp hg with rfl | hg'
        · simp
        · exact ih _ (hch ▸ List.mem_cons_of_mem _ hg')
      · rw [if_neg hab] at hg
        rcases List.mem_cons.mp hg with rfl | hg'
        · simp
        · exact ih _ (hch ▸ hg')

theorem alist_put_of_get_none {α β : Type} [DecidableEq α] (k : α) (v : β) :
    ∀ l : List (α × β), alist_get l k = none → alist_put l k v = l ++ [(k, v)] := by
  intro l
  induction l with
  | nil => intro _; rfl
  | cons hd tl ih =>
    intro h
    obtain ⟨a, b⟩ := hd
    simp only [alist_get_cons] at h
    by_cases hak : a = k
    · simp [hak] at h
    · simp only [alist_put, if_neg hak, List.cons_append]
      rw [ih (by simpa [hak] using h)]

theorem alist_put_of_get_self {α β : Type} [DecidableEq α] (k : α) (v : β) :
    ∀ l : List (α × β), alist_get l k = some v → alist_put l k v = l := by
  intro l
  induction l with
  | nil => intro h; simp at h
  | cons hd tl ih =>
    intro h
    obtain ⟨a, b⟩ := hd
    simp only [alist_get_cons] at h
    by_cases hak : a = k
    · subst hak
      simp only [if_pos rfl] at h
      injection h with h
      subst h
      simp [alist_put]
    · simp only [if_neg hak] at h
      simp [alist_put, hak, ih h]

/-- Flattening respects permutation of the outer list. -/
theorem flatten_perm_of_perm {α : Type} {l₁ l₂ : List (List α)} (h : l₁.Perm l₂) :
    l₁.flatten.Perm l₂.flatten := by
  induction h with
  | nil => exact List.Perm.refl _
  | cons x _ ih => simpa using ih.append_left x
  | swap x y t =>
    simp only [List.flatten_cons]
    exact List.perm_append_comm_assoc y x t.flatten
  | trans _ _ ih₁ ih₂ => exact ih₁.trans ih₂

/-- The players stored in a preference tree, in order. -/
def tree_members (t : List (Nat × List Id)) : List Id :=
  (t.map (fun e => e.2)).flatten

@[simp] theorem tree_members_nil : tree_members [] = [] := rfl

@[simp] theorem tree_members_cons (y : Nat × List Id) (t : List (Nat × List Id)) :
    tree_members (y :: t) = y.2 ++ tree_members t := by
  simp [tree_members]

theorem tree_insert_mem (x z : Nat × List Id) :
    ∀ t : List (Nat × List Id), z ∈ tree_insert x t → z = x ∨ z ∈ t := by
  intro t
  induction t with
  | nil =>
    intro h
    simp only [tree_insert, List.mem_singleton] at h
    exact Or.inl h
  | cons y t ih =>
    intro h
    unfold tree_insert at h
    by_cases h1 : pg_lt x y = true
    · rw [if_pos h1] at h
      rcases List.mem_cons.mp h with rfl | h'
      · exact Or.inl rfl
      · exact Or.inr h'
    · rw [if_neg h1] at h
      by_cases h2 : x = y
      · rw [if_pos h2] at h
        exact Or.inr h
      · rw [if_neg h2] at h
        rcases List.mem_cons.mp h with rfl | h'
        · exact Or.inr (List.mem_cons_self _ _)
        · rcases ih h' with h'' | h''
          · exact Or.inl h''
          · exact Or.inr (List.mem_cons_of_mem _ h'')

/-- `BTreeSet::insert` preserves the multiset of stored players, provided
the inserted group is nonempty and the players are globally distinct (the
deduplicating branch of the insertion then cannot fire). -/
theorem tree_insert_members (x : Nat × List Id) :
    ∀ t : List (Nat × List Id), x.2 ≠ [] →
      (x.2 ++ tree_members t).Nodup →
      (tree_members (tree_insert x t)).Perm (x.2 ++ tree_members t) := by
  intro t
  induction t with
  | nil =>
    intro _ _
    simp [tree_insert]
  | cons y t ih =>
    intro hx hnd
    unfold tree_insert
    by_cases h1 : pg_lt x y = true
    · rw [if_pos h1]
      simp only [tree_members_cons]
      exact List.Perm.refl _
    · rw [if_neg h1]
      by_cases h2 : x = y
      · exfalso
        subst h2
        obtain ⟨a, rest, hx2⟩ : ∃ a rest, x.2 = a :: rest := by
          cases hx2 : x.2 with
          | nil => exact absurd hx2 hx
          | cons a rest => exact ⟨a, rest, rfl⟩
        have hdisj := List.disjoint_of_nodup_append hnd
        have ha1 : a ∈ x.2 := by rw [hx2]; exact List.mem_cons_self _ _
        have ha2 : a ∈ tree_members (x :: t) := by
          rw [tree_members_cons]
          exact List.mem_append_left _ ha1
        exact hdisj ha1 ha2
      · rw [if_neg h2]
        have hsub : (x.2 ++ tree_members t).Nodup := by
          refine List.Nodup.sublist ?_ hnd
          rw [tree_members_cons]
          exact List.Sublist.append_left (List.sublist_append_right _ _) _
        have ihh := ih hx hsub
        simp only [tree_members_cons]
        refine (ihh.append_left y.2).trans ?_
        exact List.perm_append_comm_assoc _ _ _

/-- `perm_cons_erase` for an arbitrary lawful `BEq` instance. -/
theorem perm_cons_erase_beq {α : Type} [BEq α] [LawfulBEq α] {a : α} :
    ∀ {l : List α}, a ∈ l → l.Perm (a :: l.erase a) := by
  intro l
  induction l with
  | nil => intro h; simp at h
  | cons x t ih =>
    intro h
    by_cases hxa : (x == a) = true
    · have hxae : x = a := eq_of_beq hxa
      subst hxae
      rw [List.erase_cons_head]
    · have hne : x ≠ a := fun he => hxa (by rw [he]; exact beq_self_eq_true a)
      have hat : a ∈ t := by
        rcases List.mem_cons.mp h with h1 | h1
        · exact absurd h1.symm hne
        · exact h1
      rw [List.erase_cons_tail]
      · exact ((ih hat).cons x).trans (List.Perm.swap a x _)
      · simpa using hne

/-- Removing a group from the tree splits off its members, up to
permutation. -/
theorem erase_members {b : Nat × List Id} {t : List (Nat × List Id)} (hb : b ∈ t) :
    (tree_members t).Perm (b.2 ++ tree_members (t.erase b)) := by
  have h1 : t.Perm (b :: t.erase b) := perm_cons_erase_beq hb
  have h2 := flatten_perm_of_perm (h1.map (fun e => e.2))
  simpa [tree_members] using h2

/-- One merge step preserves the multiset of players and the
nonemptiness of all groups. -/
theorem merge_step_members (os : Nat) (tree : List (Nat × List Id)) (prefs : List Id)
    (hp : prefs ≠ [])
    (hne : ∀ z ∈ tree, z.2 ≠ [])
    (hnd : (prefs ++ tree_members tree).Nodup) :
    (tree_members (merge_step os tree prefs)).Perm (prefs ++ tree_members tree) ∧
      ∀ z ∈ merge_step os tree prefs, z.2 ≠ [] := by
  unfold merge_step
  cases hlast : (tree.filter fun y => pg_lt y (os - prefs.length + 1, [])).getLast? with
  | none =>
    constructor
    · exact tree_insert_members (prefs.length, prefs) tree hp hnd
    · intro z hz
      rcases tree_insert_mem _ z tree hz with rfl | hzt
      · exact hp
      · exact hne z hzt
  | some b =>
    have hbf : b ∈ tree := List.mem_of_mem_filter (List.mem_of_getLast?_eq_some hlast)
    have hperm : (tree_members tree).Perm (b.2 ++ tree_members (tree.erase b)) :=
      erase_members hbf
    have hx : ((prefs.length + b.1, prefs ++ b.2) : Nat × List Id).2 ≠ [] := by
      intro h
      exact hp (List.append_eq_nil.mp h).1
    have hnd' : (((prefs.length + b.1, prefs ++ b.2) : Nat × List Id).2 ++
        tree_members (tree.erase b)).Nodup := by
      have hpm : (prefs ++ tree_members tree).Perm
          ((prefs ++ b.2) ++ tree_members (tree.erase b)) := by
        rw [List.append_assoc]
        exact hperm.append_left prefs
      exact hpm.nodup hnd
    have hmain := tree_insert_members (prefs.length + b.1, prefs ++ b.2) (tree.erase b) hx hnd'
    constructor
    · refine hmain.trans ?_
      have : ((prefs ++ b.2) ++ tree_members (tree.erase b)).Perm
          (prefs ++ tree_members tree) := by
        rw [List.append_assoc]
        exact hperm.symm.append_left prefs
      exact this
    · intro z hz
      rcases tree_insert_mem _ z _ hz with rfl | hzt
      · exact hx
      · exact hne z (List.mem_of_mem_erase hzt)

/-- The whole merge loop of `finalize` preserves the multiset of
players. -/
theorem fold_merge_members (os : Nat) :
    ∀ (gs : List (List Id)) (tree : List (Nat × List Id)),
      (∀ g ∈ gs, g ≠ []) → (∀ z ∈ tree, z.2 ≠ []) →
      (gs.flatten ++ tree_members tree).Nodup →
      (tree_members (gs.foldl (fun t p => merge_step os t p) tree)).Perm
        (gs.flatten ++ tree_members tree) := by
  intro gs
  induction gs with
  | nil =>
    intro tree _ _ _
    simp
  | cons g gs ih =>
    intro tree hg hne hnd
    have hp : g ≠ [] := hg g (List.mem_cons_self g gs)
    have hnd0 : (g ++ (gs.flatten ++ tree_members tree)).Nodup := by
      simpa [List.append_assoc] using hnd
    have hnd1 : (g ++ tree_members tree).Nodup := by
      refine List.Nodup.sublist ?_ hnd0
      exact List.Sublist.append_left (List.sublist_append_right _ _) _
    obtain ⟨hmp, hmne⟩ := merge_step_members os tree g hp hne hnd1
    have hnd2 : (gs.flatten ++ tree_members (merge_step os tree g)).Nodup := by
      have hA : (gs.flatten ++ tree_members (merge_step os tree g)).Perm
          (gs.flatten ++ (g ++ tree_members tree)) := hmp.append_left _
      have hB : (g ++ (gs.flatten ++ tree_members tree)).Perm
          (gs.flatten ++ (g ++ tree_members tree)) := List.perm_append_comm_assoc _ _ _
      exact hA.symm.nodup (hB.nodup hnd0)
    have hrec := ih (merge_step os tree g)
      (fun g' hgm => hg g' (List.mem_cons_of_mem _ hgm)) hmne hnd2
    rw [List.foldl_cons]
    refine hrec.trans ?_
    refine (hmp.append_left gs.flatten).trans ?_
    rw [List.flatten_cons, List.append_assoc]
    exact List.perm_append_comm_assoc _ _ _


theorem alist_get_append_none {α β : Type} [DecidableEq α] (l₁ l₂ : List (α × β)) (k : α)
    (h₁ : alist_get l₁ k = none) (h₂ : alist_get l₂ k = none) :
    alist_get (l₁ ++ l₂) k = none := by
  rw [alist_get_append, h₁]
  exact h₂

theorem build_teams_map_snd (env : FinalizeEnv) (fuel : Nat)
    (hgen : ∀ i j, env.team_id_gen i = env.team_id_gen j → i = j) :
    ∀ (gs : List (List Id)) (id_k name_k : Nat) (tm : TeamManager) (w : Watchers)
      (ns : Names) (res : List (Id × String) × TeamManager × Watchers × Names),
      (∀ j, id_k ≤ j → alist_get tm.team_to_players (env.team_id_gen j) = none) →
      build_teams env fuel gs id_k name_k tm w ns = some res →
      res.2.1.team_to_players.map (fun e => e.2) =
        tm.team_to_players.map (fun e => e.2) ++ gs := by
  intro gs
  induction gs with
  | nil =>
    intro id_k name_k tm w ns res _ h
    unfold build_teams at h
    injection h with h
    rw [← h]
    simp
  | cons g gs ih =>
    intro id_k name_k tm w ns res hkeys h
    unfold build_teams at h
    dsimp only [] at h
    rcases hdraw : draw_team_name env ns (env.team_id_gen id_k) name_k fuel with _ |
      ⟨team_name, ns2, name_k2⟩
    · rw [hdraw] at h
      exact absurd h (by simp)
    · rw [hdraw] at h
      dsimp only [] at h
      rcases hrec : build_teams env fuel gs (id_k + 1) name_k2
          { player_to_team := List.foldl (fun m p => alist_put m p (env.team_id_gen id_k))
              tm.player_to_team g,
            team_to_players := alist_put tm.team_to_players (env.team_id_gen id_k) g,
            optimal_size := tm.optimal_size, preferences := tm.preferences, teams := tm.teams,
            next_team_to_receive_player := tm.next_team_to_receive_player }
          (List.foldl
            (fun w e =>
              w.update_watcher_value e.2
                (Value.Player (PlayerValue.Team team_name ((ns2.get_name e.2).getD "")
                  (env.team_id_gen id_k) e.1)))
            w g.enum)
          ns2 with _ | ⟨rest, tmf, wf, nsf⟩
      · rw [hrec] at h
        exact absurd h (by simp)
      · rw [hrec] at h
        dsimp only [] at h
        injection h with h
        have hput : alist_put tm.team_to_players (env.team_id_gen id_k) g =
            tm.team_to_players ++ [(env.team_id_gen id_k, g)] :=
          alist_put_of_get_none _ _ _ (hkeys id_k (Nat.le_refl _))
        have hkeys2 : ∀ j, id_k + 1 ≤ j →
            alist_get (tm.team_to_players ++ [(env.team_id_gen id_k, g)])
              (env.team_id_gen j) = none := by
          intro j hj
          refine alist_get_append_none _ _ _ (hkeys j (by omega)) ?_
          have hne : env.team_id_gen id_k ≠ env.team_id_gen j := by
            intro he
            have := hgen _ _ he
            omega
          simp [alist_get, hne]
        have hih := ih (id_k + 1) name_k2 _ _ _ (rest, tmf, wf, nsf)
          (by
            intro j hj
            dsimp only []
            rw [hput]
            exact hkeys2 j hj)
          hrec
        rw [← h]
        dsimp only [] at hih ⊢
        rw [hih, hput]
        simp

theorem map_snd_pair_map (f : Id → Id) (l : List Id) :
    (l.map (fun id => (f id, id))).map (fun e => e.2) = l := by
  induction l with
  | nil => rfl
  | cons a t ih => simp [ih]

theorem grouped_flatten_perm (env : FinalizeEnv) (hsh : ∀ l, (env.shuffle l).Perm l)
    (pairs : List (Id × Id)) :
    (((chunk_by_anchor pairs).map (fun g => env.shuffle (g.map (fun e => e.2)))).flatten).Perm
      (pairs.map (fun e => e.2)) := by
  have h1 : List.Forall₂ (fun a b => a.Perm b)
      ((chunk_by_anchor pairs).map (fun g => env.shuffle (g.map (fun e => e.2))))
      ((chunk_by_anchor pairs).map (fun g => g.map (fun e => e.2))) := by
    induction chunk_by_anchor pairs with
    | nil => exact List.Forall₂.nil
    | cons c cs ih => exact List.Forall₂.cons (hsh _) ih
  refine (List.Perm.flatten_congr h1).trans ?_
  rw [← List.map_flatten, chunk_by_anchor_flatten]

theorem grouped_ne_nil (env : FinalizeEnv) (hsh : ∀ l, (env.shuffle l).Perm l)
    (pairs : List (Id × Id)) :
    ∀ g ∈ (chunk_by_anchor pairs).map (fun g => env.shuffle (g.map (fun e => e.2))), g ≠ [] := by
  intro g hg hgnil
  obtain ⟨c, hc, hce⟩ := List.mem_map.mp hg
  have hlen := (hsh (c.map (fun e => e.2))).length_eq
  rw [hce, hgnil] at hlen
  have hcnil : c = [] := by
    rw [List.length_map] at hlen
    exact List.length_eq_zero.mp hlen.symm
  exact chunk_by_anchor_ne_nil pairs c hc hcnil

theorem finalize_members (tm : TeamManager) (w : Watchers) (ns : Names) (alive : Id → Bool)
    (env : FinalizeEnv) (fuel : Nat) (tm2 : TeamManager) (w2 : Watchers) (ns2 : Names)
    (hsh : ∀ l, (env.shuffle l).Perm l)
    (hgen : ∀ i j, env.team_id_gen i = env.team_id_gen j → i = j)
    (hnd : (w.specific_ids .Player alive).Nodup)
    (hteams : tm.teams = none)
    (hempty : tm.team_to_players = [])
    (hfin : TeamManager.finalize tm w ns alive env fuel = some (tm2, w2, ns2)) :
    ((tm2.team_to_players.map (fun e => e.2)).flatten).Perm (w.specific_ids .Player alive) := by
  unfold TeamManager.finalize at hfin
  rw [hteams] at hfin
  dsimp only [] at hfin
  set P := w.specific_ids ValueKind.Player alive with hP
  set pairs := P.map (fun id => (mutual_anchor tm.preferences id, id)) with hpairs
  set G1 := (chunk_by_anchor
      (sort_by_stable (fun a b => decide (a.1 < b.1 ∨ a.1 = b.1 ∧ a.2 ≤ b.2)) pairs)).map
    (fun g => env.shuffle (g.map (fun e => e.2))) with hG1
  set L := (sort_by_stable (fun a b => decide (a.length ≤ b.length)) G1).reverse with hLdef
  have hG1flat : G1.flatten.Perm P := by
    refine (grouped_flatten_perm env hsh _).trans ?_
    refine ((sort_by_stable_perm _ pairs).map (fun e => e.2)).trans ?_
    rw [hpairs, map_snd_pair_map]
  have hLperm : L.Perm G1 := (List.reverse_perm _).trans (sort_by_stable_perm _ _)
  have hLflat : L.flatten.Perm P := (flatten_perm_of_perm hLperm).trans hG1flat
  have hLne : ∀ g ∈ L, g ≠ [] := fun g hg =>
    grouped_ne_nil env hsh _ g (hLperm.mem_iff.mp hg)
  have hkeys : ∀ j, 0 ≤ j → alist_get tm.team_to_players (env.team_id_gen j) = none := by
    intro j _
    rw [hempty]
    rfl
  by_cases hc : max ((P.length + tm.optimal_size - 1) / tm.optimal_size) 1 < L.length
  · rw [if_pos hc] at hfin
    rcases hbt : build_teams env fuel
        ((L.foldl (fun tree prefs => merge_step tm.optimal_size tree prefs) []).map
          (fun e => e.2)) 0 0 tm w ns with _ | ⟨ft, tmf, wf, nsf⟩
    · rw [hbt] at hfin
      exact absurd hfin (by simp)
    · rw [hbt] at hfin
      dsimp only [] at hfin
      injection hfin with hfin
      injection hfin with ha hb
      injection hb with hb hc2
      have hbmap := build_teams_map_snd env fuel hgen _ 0 0 tm w ns (ft, tmf, wf, nsf) hkeys hbt
      rw [hempty] at hbmap
      simp only [List.map_nil, List.nil_append] at hbmap
      rw [← ha]
      dsimp only [] at hbmap ⊢
      rw [hbmap]
      have hfold := fold_merge_members tm.optimal_size L [] hLne
        (by intro z hz; simp at hz) (by simpa using hLflat.symm.nodup hnd)
      simp only [tree_members_nil, List.append_nil] at hfold
      exact hfold.trans hLflat
  · rw [if_neg hc] at hfin
    rcases hbt : build_teams env fuel L 0 0 tm w ns with _ | ⟨ft, tmf, wf, nsf⟩
    · rw [hbt] at hfin
      exact absurd hfin (by simp)
    · rw [hbt] at hfin
      dsimp only [] at hfin
      injection hfin with hfin
      injection hfin with ha hb
      injection hb with hb hc2
      have hbmap := build_teams_map_snd env fuel hgen _ 0 0 tm w ns (ft, tmf, wf, nsf) hkeys hbt
      rw [hempty] at hbmap
      simp only [List.map_nil, List.nil_append] at hbmap
      rw [← ha]
      dsimp only [] at hbmap ⊢
      rw [hbmap]
      exact hLflat

/-- The exactly-one-team invariant established by `finalize`. -/
theorem finalize_partition (tm : TeamManager) (w : Watchers) (ns : Names) (alive : Id → Bool)
    (env : FinalizeEnv) (fuel : Nat) (tm2 : TeamManager) (w2 : Watchers) (ns2 : Names)
    (hsh : ∀ l, (env.shuffle l).Perm l)
    (hgen : ∀ i j, env.team_id_gen i = env.team_id_gen j → i = j)
    (hnd : (w.specific_ids .Player alive).Nodup)
    (hteams : tm.teams = none)
    (hempty : tm.team_to_players = [])
    (hfin : TeamManager.finalize tm w ns alive env fuel = some (tm2, w2, ns2)) :
    ∀ p, member_count tm2 p = if p ∈ w.specific_ids .Player alive then 1 else 0 := by
  have hflat := finalize_members tm w ns alive env fuel tm2 w2 ns2 hsh hgen hnd hteams hempty hfin
  intro p
  have hmc : member_count tm2 p =
      ((tm2.team_to_players.map (fun e => e.2)).flatten).count p := by
    rw [List.count_flatten, member_count, List.map_map]
    rfl
  rw [hmc, hflat.count_eq p]
  by_cases hp : p ∈ w.specific_ids .Player alive
  · rw [if_pos hp]
    exact List.count_eq_one_of_mem hnd hp
  · rw [if_neg hp]
    exact List.count_eq_zero_of_not_mem hp

/-- Splitting an association list at the first occurrence of a present
key, before and after an overwrite. -/
theorem alist_put_decomp {α β : Type} [DecidableEq α] (k : α) (v : β) :
    ∀ (m : List (α × β)) (l : β), alist_get m k = some l →
      ∃ m₁ m₂, m = m₁ ++ (k, l) :: m₂ ∧ alist_put m k v = m₁ ++ (k, v) :: m₂ := by
  intro m
  induction m with
  | nil => intro l h; simp at h
  | cons hd t ih =>
    intro l h
    obtain ⟨a, b⟩ := hd
    by_cases hak : a = k
    · subst hak
      simp only [alist_get_cons, if_pos rfl] at h
      injection h with h
      subst h
      exact ⟨[], t, by simp, by simp [alist_put]⟩
    · simp only [alist_get_cons, if_neg hak] at h
      obtain ⟨m₁, m₂, he, hp⟩ := ih l h
      exact ⟨(a, b) :: m₁, m₂, by simp [he], by simp [alist_put, hak, hp]⟩

/-- `TeamManager::add_player` after finalization, in closed form: the
target team is `teams[next_index % teams.len()]` regardless of any
existing mapping of the player, the counter advances, the player is
(re)assigned, and the target list gains the player unless already
present. -/
theorem add_player_spec (tm : TeamManager) (p : Id) (w : Watchers) (ts : List (Id × String))
    (tid : Id) (tname : String) (l : List Id)
    (hts : tm.teams = some ts)
    (hget : ts.get? (tm.next_team_to_receive_player % ts.length) = some (tid, tname))
    (hl : alist_get tm.team_to_players tid = some l) :
    TeamManager.add_player tm p w = some (some tname,
      { player_to_team := alist_put tm.player_to_team p tid,
        team_to_players := alist_put tm.team_to_players tid
          (if p ∈ l then l else l ++ [p]),
        optimal_size := tm.optimal_size,
        preferences := tm.preferences,
        teams := some ts,
        next_team_to_receive_player := tm.next_team_to_receive_player + 1 },
      w.update_watcher_value p (.Player (.Team tname ((w.get_name p).getD "") tid
        ((l.findIdx? (fun x => x == p)).getD l.length)))) := by
  obtain ⟨ptt, ttp, osz, prefs, tms, nxt⟩ := tm
  dsimp only [] at hts hget hl ⊢
  subst hts
  unfold TeamManager.add_player
  dsimp only []
  rw [hget]
  dsimp only []
  rw [hl]
  dsimp only []
  cases hpos : l.findIdx? (fun x => x == p) with
  | none =>
    have hnm : p ∉ l := by
      intro hmem
      have := List.findIdx?_eq_none_iff.mp hpos p hmem
      simp at this
    dsimp only []
    rw [if_neg hnm]
  | some i =>
    have hm : p ∈ l := by
      by_contra hnm
      have : l.findIdx? (fun x => x == p) = none := by
        refine List.findIdx?_eq_none_iff.mpr ?_
        intro x hx
        simp only [beq_eq_false_iff_ne, ne_eq]
        intro he
        exact hnm (he ▸ hx)
      rw [this] at hpos
      exact absurd hpos (by simp)
    dsimp only []
    rw [if_pos hm]

/-- Adding a previously unmapped late joiner preserves the exactly-one
invariant: the new player lands in exactly one team list and every other
player's membership count is unchanged. -/
theorem add_player_unmapped_count (tm : TeamManager) (p : Id) (w : Watchers)
    (ts : List (Id × String)) (tid : Id) (tname : String) (l : List Id)
    (hts : tm.teams = some ts)
    (hget : ts.get? (tm.next_team_to_receive_player % ts.length) = some (tid, tname))
    (hl : alist_get tm.team_to_players tid = some l)
    (honce : member_count tm p = 0) :
    ∃ tm2 w2, TeamManager.add_player tm p w = some (some tname, tm2, w2) ∧
      member_count tm2 p = 1 ∧ ∀ q, q ≠ p → member_count tm2 q = member_count tm q := by
  obtain ⟨m₁, m₂, he, hp⟩ := alist_put_decomp tid (if p ∈ l then l else l ++ [p])
    tm.team_to_players l hl
  have h0 : (m₁.map (fun e => e.2.count p)).sum = 0 ∧ l.count p = 0 ∧
      (m₂.map (fun e => e.2.count p)).sum = 0 := by
    rw [member_count, he] at honce
    simp only [List.map_append, List.map_cons, List.sum_append, List.sum_cons] at honce
    omega
  have hpl : p ∉ l := List.count_eq_zero.mp h0.2.1
  rw [if_neg hpl] at hp
  have hspec := add_player_spec tm p w ts tid tname l hts hget hl
  rw [if_neg hpl] at hspec
  refine ⟨_, _, hspec, ?_, ?_⟩
  · rw [member_count]
    dsimp only []
    rw [hp]
    simp only [List.map_append, List.map_cons, List.sum_append, List.sum_cons,
      List.count_append]
    have h1 : l.count p + [p].count p = 1 := by
      rw [h0.2.1]
      simp
    omega
  · intro q hq
    rw [member_count, member_count]
    dsimp only []
    rw [hp, he]
    simp only [List.map_append, List.map_cons, List.sum_append, List.sum_cons,
      List.count_append]
    have h1 : [p].count q = 0 := by
      simp [List.count_cons]
      exact fun he2 => absurd he2.symm hq
    omega

/-- A deterministic finalize environment: identity shuffle, sequential
team ids starting at 100, and a two-petname pool. -/
def env5 : FinalizeEnv :=
  { shuffle := fun l => l
    team_id_gen := fun k => 100 + k
    petname_gen := fun k => if k = 0 then "Cats" else "Dogs"
    trim := fun s => s
    inappropriate := fun _ => false }

/-- A registry with two players, ids 1 and 2. -/
def w5 : Watchers :=
  { mapping := [(1, .Player (.Individual "alice")), (2, .Player (.Individual "bob"))]
    unassigned_bucket := []
    host_bucket := []
    player_bucket := [1, 2] }

/-- An empty name registry. -/
def ns5 : Names := { mapping := [], reverse_mapping := [], existing := [] }

/-- The team manager produced by `finalize` in the scenario above:
player 2 on team 100 ("Cats"), player 1 on team 101 ("Dogs"). -/
def tm5c : TeamManager :=
  { player_to_team := [(2, 100), (1, 101)]
    team_to_players := [(100, [2]), (101, [1])]
    optimal_size := 1
    preferences := none
    teams := some [(100, "Cats"), (101, "Dogs")]
    next_team_to_receive_player := 0 }

/-- The watcher registry produced by that `finalize`. -/
def w5fc : Watchers :=
  { mapping := [(1, .Player (.Team "Dogs" "" 101 0)), (2, .Player (.Team "Cats" "" 100 0))]
    unassigned_bucket := []
    host_bucket := []
    player_bucket := [1, 2] }

/-- The name registry produced by that `finalize`. -/
def ns5fc : Names :=
  { mapping := [(100, "Cats"), (101, "Dogs")]
    reverse_mapping := [("Cats", 100), ("Dogs", 101)]
    existing := ["Dogs", "Cats"] }

/-- The team manager after `add_player(1)` on `tm5c`: player 1, though
already on team 101, is round-robined onto team 100 and now appears in
both member lists. -/
def tm6a : TeamManager :=
  { player_to_team := [(2, 100), (1, 100)]
    team_to_players := [(100, [2, 1]), (101, [1])]
    optimal_size := 1
    preferences := none
    teams := some [(100, "Cats"), (101, "Dogs")]
    next_team_to_receive_player := 1 }

/-- The watcher registry after that `add_player(1)`. -/
def w6a : Watchers :=
  { mapping := [(1, .Player (.Team "Cats" "" 100 1)), (2, .Player (.Team "Cats" "" 100 0))]
    unassigned_bucket := []
    host_bucket := []
    player_bucket := [1, 2] }

/-- The team manager after `add_player(3)` (a genuinely new player) on
`tm5c`. -/
def tm6c : TeamManager :=
  { player_to_team := [(2, 100), (1, 101), (3, 100)]
    team_to_players := [(100, [2, 3]), (101, [1])]
    optimal_size := 1
    preferences := none
    teams := some [(100, "Cats"), (101, "Dogs")]
    next_team_to_receive_player := 1 }

/-- C5 (counterexample): `add_player` on an already-mapped player is not
idempotent and breaks the exactly-one-team invariant.  After a concrete
`finalize` of two players into two teams of one, player 1 is mapped to
team 101 ("Dogs") and appears in exactly one member list; calling
`add_player(1)` nevertheless assigns the round-robin target team 100,
returns "Cats" (not the player's team name "Dogs"), rewrites the
mapping, and leaves player 1 present in two member lists at once —
`add_player` never checks whether the player is already mapped. -/
theorem C5_add_player_remaps_mapped_player :
    TeamManager.finalize (TeamManager.new 1 true) w5 ns5 (fun _ => true) env5 3 =
      some (tm5c, w5fc, ns5fc) ∧
    tm5c.get_team 1 = some 101 ∧
    alist_get (tm5c.teams.getD []) 101 = some "Dogs" ∧
    member_count tm5c 1 = 1 ∧
    TeamManager.add_player tm5c 1 w5fc = some (some "Cats", tm6a, w6a) ∧
    "Cats" ≠ "Dogs" ∧
    tm6a.get_team 1 = some 100 ∧
    member_count tm6a 1 = 2 := by
  refine ⟨rfl, rfl, rfl, rfl, rfl, ?_, rfl, rfl⟩
  decide

/-- C5 (amended): (1) after `TeamManager::finalize` from an empty map —
under a permutation shuffle, injective id generation and distinct live
players — every player present at finalize time is in exactly one team's
member list and everyone else is in none; (2) `add_player`
unconditionally targets `teams[next_index % teams.len()]`, appends the
player to that team's list unless already present, advances the counter
and returns that team's name, regardless of any existing mapping of the
player (so it is *not* idempotent for already-mapped players); (3) for a
player not yet in any member list, `add_player` results in the player
being in exactly one member list while all other membership counts are
unchanged. -/
theorem C5_team_assignment :
    (∀ (tm : TeamManager) (w : Watchers) (ns : Names) (alive : Id → Bool)
       (env : FinalizeEnv) (fuel : Nat) (tm2 : TeamManager) (w2 : Watchers) (ns2 : Names),
       (∀ l, (env.shuffle l).Perm l) →
       (∀ i j, env.team_id_gen i = env.team_id_gen j → i = j) →
       (w.specific_ids .Player alive).Nodup →
       tm.teams = none →
       tm.team_to_players = [] →
       TeamManager.finalize tm w ns alive env fuel = some (tm2, w2, ns2) →
       ∀ p, member_count tm2 p = if p ∈ w.specific_ids .Player alive then 1 else 0)
    ∧
    (∀ (tm : TeamManager) (p : Id) (w : Watchers) (ts : List (Id × String))
       (tid : Id) (tname : String) (l : List Id),
       tm.teams = some ts →
       ts.get? (tm.next_team_to_receive_player % ts.length) = some (tid, tname) →
       alist_get tm.team_to_players tid = some l →
       TeamManager.add_player tm p w = some (some tname,
         { player_to_team := alist_put tm.player_to_team p tid,
           team_to_players := alist_put tm.team_to_players tid
             (if p ∈ l then l else l ++ [p]),
           optimal_size := tm.optimal_size,
           preferences := tm.preferences,
           teams := some ts,
           next_team_to_receive_player := tm.next_team_to_receive_player + 1 },
         w.update_watcher_value p (.Player (.Team tname ((w.get_name p).getD "") tid
           ((l.findIdx? (fun x => x == p)).getD l.length)))))
    ∧
    (∀ (tm : TeamManager) (p : Id) (w : Watchers) (ts : List (Id × String))
       (tid : Id) (tname : String) (l : List Id),
       tm.teams = some ts →
       ts.get? (tm.next_team_to_receive_player % ts.length) = some (tid, tname) →
       alist_get tm.team_to_players tid = some l →
       member_count tm p = 0 →
       ∃ tm2 w2, TeamManager.add_player tm p w = some (some tname, tm2, w2) ∧
         member_count tm2 p = 1 ∧ ∀ q, q ≠ p → member_count tm2 q = member_count tm q) :=
  ⟨finalize_partition, add_player_spec, add_player_unmapped_count⟩

/-- C5 witness: the amended theorem applied to the concrete scenario —
the finalize partition puts player 1 in exactly one team, and adding the
fresh player 3 lands it in exactly one team. -/
theorem C5_team_assignment_witness :
    member_count tm5c 1 = 1 ∧ member_count tm6c 3 = 1 := by
  constructor
  · have h := C5_team_assignment.1 (TeamManager.new 1 true) w5 ns5 (fun _ => true) env5 3
      tm5c w5fc ns5fc (fun l => List.Perm.refl l)
      (fun i j h => by
        have h2 : 100 + i = 100 + j := h
        omega)
      (by decide) rfl rfl rfl 1
    rw [if_pos (by decide)] at h
    exact h
  · obtain ⟨tm2, w2, hadd, hone, _⟩ := C5_team_assignment.2.2 tm5c 3 w5fc
      [(100, "Cats"), (101, "Dogs")] 100 "Cats" [2] rfl rfl rfl (by decide)
    have hcalc : TeamManager.add_player tm5c 3 w5fc = some (some "Cats", tm6c, w5fc) := rfl
    rw [hcalc] at hadd
    injection hadd with h1
    injection h1 with h1a h1b
    injection h1b with h2a h2b
    rw [h2a]
    exact hone

end FuizGame
